import Mathlib

/-
Verification of the runtime-final library (final classes and methods at runtime).

The repository ships two implementations of the same design:
  * the installed package `runtime_final/__init__.py` (modelled below in the
    `Pkg` namespace, "model A"), and
  * a refactored single module `src/runtime_final.py` (modelled in the `Src`
    namespace, "model B").

The shallow embedding models the fragment of Python's class machinery the
library manipulates: class objects with a linear ancestor chain (the MRO is
fixed at class-creation time, so each class record stores its ancestor list),
a class-body namespace (an insertion-ordered association list, later
declarations of the same name overwriting earlier ones, exactly as a Python
class body's dict behaves), the `__set_name__` protocol (invoked once per
namespace entry after the type object is created), and the
`__init_subclass__` hook (looked up on the parent chain and invoked on the
new subtype, after all `__set_name__` calls).

Registries (`__runtime_final_methods__`) are mutable objects found by
inherited attribute lookup, so they live in a separate heap addressed by
`RegId`; a class record stores at most a reference to the registry object it
itself created.  Member declarations cover the four supported shapes (plain
function, property accessor, staticmethod, classmethod); underlying callables
are identified by numeric ids, mirroring Python object identity of the
declared functions.  Class-body member names are ordinary member names (the
special names `__init_subclass__` etc. are modelled by the dedicated record
fields, not by namespace entries).
-/

set_option autoImplicit false

deriving instance DecidableEq for Except

namespace RuntimeFinal

/-! ## Association-list primitives (Python dict / attribute tables) -/

def kget {α β : Type} [DecidableEq α] : List (α × β) → α → Option β
  | [], _ => none
  | (a, b) :: t, k => if a = k then some b else kget t k

def kset {α β : Type} [DecidableEq α] : List (α × β) → α → β → List (α × β)
  | [], k, v => [(k, v)]
  | (a, b) :: t, k, v => if a = k then (k, v) :: t else (a, b) :: kset t k v

def kupd {α β : Type} [DecidableEq α] : List (α × β) → α → (β → β) → List (α × β)
  | [], _, _ => []
  | (a, b) :: t, k, f => if a = k then (a, f b) :: t else (a, b) :: kupd t k f

def kdel {α β : Type} [DecidableEq α] : List (α × β) → α → List (α × β)
  | [], _ => []
  | (a, b) :: t, k => if a = k then kdel t k else (a, b) :: kdel t k

def freshNat {β : Type} (l : List (Nat × β)) : Nat :=
  (l.map Prod.fst).foldr Nat.max 0 + 1

@[simp] theorem kget_nil {α β : Type} [DecidableEq α] (k : α) :
    kget ([] : List (α × β)) k = none := rfl

theorem kget_cons {α β : Type} [DecidableEq α] (a : α) (b : β) (t : List (α × β)) (k : α) :
    kget ((a, b) :: t) k = if a = k then some b else kget t k := rfl

theorem kget_append {α β : Type} [DecidableEq α] (l₁ l₂ : List (α × β)) (k : α) :
    kget (l₁ ++ l₂) k = match kget l₁ k with
      | some v => some v
      | none => kget l₂ k := by
  induction l₁ with
  | nil => simp [kget]
  | cons hd t ih =>
    obtain ⟨a, b⟩ := hd
    by_cases h : a = k
    · simp [kget, h]
    · simp [kget, h, ih]

theorem kget_kset_self {α β : Type} [DecidableEq α] (l : List (α × β)) (k : α) (v : β) :
    kget (kset l k v) k = some v := by
  induction l with
  | nil => simp [kset, kget]
  | cons hd t ih =>
    obtain ⟨a, b⟩ := hd
    by_cases h : a = k
    · simp [kset, h, kget]
    · simp [kset, h, kget, ih]

theorem kget_kset_other {α β : Type} [DecidableEq α] (l : List (α × β)) (k x : α) (v : β)
    (h : x ≠ k) : kget (kset l k v) x = kget l x := by
  induction l with
  | nil => simp [kset, kget, Ne.symm h]
  | cons hd t ih =>
    obtain ⟨a, b⟩ := hd
    by_cases ha : a = k
    · subst ha
      simp [kset, kget, Ne.symm h]
    · simp [kset, ha, kget, ih]

theorem kget_kupd_self {α β : Type} [DecidableEq α] (l : List (α × β)) (k : α) (f : β → β) :
    kget (kupd l k f) k = (kget l k).map f := by
  induction l with
  | nil => simp [kupd, kget]
  | cons hd t ih =>
    obtain ⟨a, b⟩ := hd
    by_cases h : a = k
    · simp [kupd, h, kget]
    · simp [kupd, h, kget, ih]

theorem kget_kupd_other {α β : Type} [DecidableEq α] (l : List (α × β)) (k x : α) (f : β → β)
    (h : x ≠ k) : kget (kupd l k f) x = kget l x := by
  induction l with
  | nil => simp [kupd]
  | cons hd t ih =>
    obtain ⟨a, b⟩ := hd
    by_cases ha : a = k
    · subst ha
      simp [kupd, kget, Ne.symm h]
    · simp [kupd, ha, kget, ih]

theorem kget_le_max {β : Type} (l : List (Nat × β)) (k : Nat) (v : β)
    (h : kget l k = some v) : k ≤ (l.map Prod.fst).foldr Nat.max 0 := by
  induction l with
  | nil => simp [kget] at h
  | cons hd t ih =>
    obtain ⟨a, b⟩ := hd
    simp only [List.map_cons, List.foldr_cons]
    by_cases ha : a = k
    · subst ha
      exact Nat.le_max_left _ _
    · simp [kget, ha] at h
      exact le_trans (ih h) (Nat.le_max_right _ _)

theorem kget_fresh {β : Type} (l : List (Nat × β)) : kget l (freshNat l) = none := by
  cases h : kget l (freshNat l) with
  | none => rfl
  | some v =>
    have h2 := kget_le_max l (freshNat l) v h
    unfold freshNat at h2
    omega

theorem kget_ne_fresh {β : Type} (l : List (Nat × β)) (k : Nat) (v : β)
    (h : kget l k = some v) : k ≠ freshNat l := by
  intro he
  rw [he, kget_fresh] at h
  exact Option.noConfusion h

theorem kdel_of_none {α β : Type} [DecidableEq α] (l : List (α × β)) (k : α)
    (h : kget l k = none) : kdel l k = l := by
  induction l with
  | nil => rfl
  | cons hd t ih =>
    obtain ⟨a, b⟩ := hd
    by_cases ha : a = k
    · simp [kget, ha] at h
    · simp [kget, ha] at h
      simp [kdel, ha, ih h]

theorem kdel_append_one {α β : Type} [DecidableEq α] (l : List (α × β)) (k : α) (v : β)
    (h : kget l k = none) : kdel (l ++ [(k, v)]) k = l := by
  induction l with
  | nil => simp [kdel]
  | cons hd t ih =>
    obtain ⟨a, b⟩ := hd
    by_cases ha : a = k
    · simp [kget, ha] at h
    · simp [kget, ha] at h
      simp [kdel, ha, ih h]

theorem kget_kset_mem_keys {α β : Type} [DecidableEq α] (l : List (α × β)) (k x : α) (v : β) :
    (kget (kset l k v) x).isSome = true ↔ x = k ∨ (kget l x).isSome = true := by
  by_cases h : x = k
  · subst h
    simp [kget_kset_self]
  · simp [kget_kset_other l k x v h, h]

theorem kget_append_one_other {α β : Type} [DecidableEq α] (l : List (α × β)) (k : α)
    (v : β) (x : α) (hx : x ≠ k) : kget (l ++ [(k, v)]) x = kget l x := by
  rw [kget_append]
  cases h : kget l x with
  | none => simp [kget, Ne.symm hx]
  | some w => rfl

/-! ## Member shapes and namespace values -/

/-- The supported member shapes a class body can declare: a plain function, a
property accessor bundle (identified by its getter), a staticmethod, or a
classmethod.  Underlying callables are identified by numeric ids. -/
inductive Shape
  | plainFn (f : Nat)
  | accessor (fget : Nat)
  | staticFn (f : Nat)
  | classFn (f : Nat)
deriving DecidableEq

/-- `_resolve_target`: property resolves to its `fget`, staticmethod and
classmethod to `__func__`, a plain function to itself. -/
def Shape.resolve : Shape → Nat
  | .plainFn f => f
  | .accessor fget => fget
  | .staticFn f => f
  | .classFn f => f

/-- Values stored in a class namespace, plus the values produced by attribute
access on a class (descriptor protocol). -/
inductive Val
  | fnV (f : Nat)
  | accessorV (fget : Nat)
  | staticV (f : Nat)
  | classV (f : Nat)
  | boundV (f : Nat) (receiver : Nat)
  | finalSlot (sh : Shape)
deriving DecidableEq

/-- The original target object, as stored back into the class namespace by
`setattr(owner, name, target)`. -/
def Shape.toVal : Shape → Val
  | .plainFn f => .fnV f
  | .accessor fget => .accessorV fget
  | .staticFn f => .staticV f
  | .classFn f => .classV f

/-- Attribute access on a class resolves descriptors: a staticmethod yields
the underlying function, a classmethod a method bound to the accessing class;
properties and plain functions are returned as-is on class access. -/
def classAccess (c : Nat) : Val → Val
  | .staticV f => .fnV f
  | .classV f => .boundV f c
  | v => v

/-- An unrelated, independently installed `__init_subclass__` hook: either it
raises unconditionally, or it requires the class it inspects to declare a
member named `attr` in its own namespace. -/
inductive UHook
  | alwaysRaise (msg : String)
  | requireOwnMember (attr : String)
deriving DecidableEq

/-- The errors the modelled code can raise.  All of them are `RuntimeError`s
in Python; the constructors record the data interpolated into the message. -/
inductive PyErr
  | cannotSubclass (clsName : String)
  | cannotOverride (memberName : String) (clsName : String)
  | userErr (msg : String)
  | missingParent
  | recursionDepth
deriving DecidableEq

/-- A member declaration in a class body: its name, shape, and whether it is
decorated with `@final`. -/
structure Decl where
  dname : String
  shape : Shape
  marked : Bool
deriving DecidableEq

/-- A class statement: module, class name, optional (single) base class, the
ordinary member declarations in body order, and an optional unrelated
`__init_subclass__` declared in the body. -/
structure ClassDef where
  modName : String
  clsName : String
  parent : Option Nat
  decls : List Decl
  bodyHook : Option UHook
deriving DecidableEq

/-- The value a declaration leaves in the class namespace: `@final` members
are `_Final` wrapper instances until `__set_name__` rewrites them. -/
def declVal (d : Decl) : Val := if d.marked then .finalSlot d.shape else d.shape.toVal

/-- Executing the class body builds the namespace dict; a later declaration
of the same name overwrites the earlier one. -/
def buildNs (ds : List Decl) : List (String × Val) :=
  ds.foldl (fun ns d => kset ns d.dname (declVal d)) []

def qualOf (modName clsName : String) : String := modName ++ "." ++ clsName

namespace Pkg

/-! ## Model A: the installed package `runtime_final/__init__.py` -/

/-- An `__init_subclass__` hook value in the package implementation:
`object.__init_subclass__` (the default), `_forbid_subclassing`,
the module-level `_forbid_overriding_finals` classmethod, or an unrelated
user-installed hook. -/
inductive Hook
  | dflt
  | forbidSub
  | forbidOverride
  | user (u : UHook)
deriving DecidableEq

/-- A class object of the package model.  `ancs` is the linear ancestor
chain (immediate parent first); `dict` the member namespace (`vars`);
`initSub` the class's own `__init_subclass__` attribute (none = inherited);
`oldInitSub` its own `__runtime_old_init_subclass__` attribute, a hook
together with the class it was bound to when stored; `reg` its own
`__runtime_final_methods__` reference; `flagged` whether
`__runtime_is_final__` was set on the class object. -/
structure AClass where
  modName : String
  clsName : String
  ancs : List Nat
  dict : List (String × Val)
  initSub : Option Hook
  oldInitSub : Option (Hook × Nat)
  reg : Option Nat
  flagged : Bool
deriving DecidableEq

/-- Global state of the package model: the class objects, the heap of
registry objects (each an insertion-ordered set of member names), and the
set of function ids carrying the `__runtime_is_final__` marker. -/
structure AState where
  classes : List (Nat × AClass)
  regs : List (Nat × List String)
  flaggedFns : List Nat
deriving DecidableEq

def initA : AState := { classes := [], regs := [], flaggedFns := [] }

def getC (s : AState) (c : Nat) : Option AClass := kget s.classes c

/-- The attribute-lookup chain of a class: itself, then its ancestors. -/
def chainA (s : AState) (c : Nat) : List Nat :=
  c :: (((getC s c).map AClass.ancs).getD [])

/-- `hasattr`/`getattr` for `__runtime_final_methods__`: the first class in
the lookup chain with its own registry reference wins. -/
def findRegA (s : AState) : List Nat → Option Nat
  | [] => none
  | c :: t =>
    match (getC s c).bind AClass.reg with
    | some r => some r
    | none => findRegA s t

/-- Lookup of `__init_subclass__` along a chain; `object.__init_subclass__`
is the default at the root. -/
def findHookA (s : AState) : List Nat → Hook
  | [] => .dflt
  | c :: t =>
    match (getC s c).bind AClass.initSub with
    | some h => h
    | none => findHookA s t

/-- `getattr(cls, "__runtime_old_init_subclass__", None)`: the first stored
bound hook along the chain.  The binding receiver was fixed when the value
was stored. -/
def findOldA (s : AState) : List Nat → Option (Hook × Nat)
  | [] => none
  | c :: t =>
    match (getC s c).bind AClass.oldInitSub with
    | some p => some p
    | none => findOldA s t

def dictOf (s : AState) (c : Nat) : List (String × Val) :=
  ((getC s c).map AClass.dict).getD []

/-- `name in vars(cls)`. -/
def hasOwn (s : AState) (c : Nat) (n : String) : Bool :=
  (kget (dictOf s c) n).isSome

def clsNameOf (s : AState) (c : Nat) : String :=
  ((getC s c).map AClass.clsName).getD ""

/-- Add a name to a registry (Python `set.add`): a no-op if present. -/
def addName (l : List String) (n : String) : List String :=
  if n ∈ l then l else l ++ [n]

def regNames (s : AState) (rid : Nat) : List String :=
  (kget s.regs rid).getD []

/-- `_Final.__set_name__(self, owner, name)` of the package implementation.
`origV` is the value of the class-level attribute `_Final.__original_target__`
at the time the hook runs, i.e. the original target of the last `@final`
decoration executed in the class body (the wrapper stores its target on the
`_Final` class itself, not on the instance). -/
def setNameA (s : AState) (owner : Nat) (n : String) (origV : Val) : AState :=
  match getC s owner with
  | none => s
  | some k =>
    let found := findRegA s (chainA s owner)
    let regs1 := match found with
      | some rid => kupd s.regs rid (fun ns => addName ns n)
      | none => s.regs ++ [(freshNat s.regs, [n])]
    let reg1 : Option Nat := match found with
      | some _ => k.reg
      | none => some (freshNat s.regs)
    let old : Hook × Nat := (findHookA s (chainA s owner), owner)
    let dict1 := kset k.dict n origV
    let k1 : AClass := { k with reg := reg1, oldInitSub := some old, initSub := some Hook.forbidOverride, dict := dict1 }
    { s with regs := regs1, classes := kset s.classes owner k1 }

/-- Run `__set_name__` for every `_Final` entry of the freshly created
namespace, in namespace order. -/
def runSetNamesA (s : AState) (owner : Nat) (origV : Val) :
    List (String × Val) → AState
  | [] => s
  | (n, .finalSlot _) :: t => runSetNamesA (setNameA s owner n origV) owner origV t
  | _ :: t => runSetNamesA s owner origV t

/-- The unrelated user hook, evaluated on a class. -/
def evalUHookA (s : AState) (u : UHook) (c : Nat) : Except PyErr Unit :=
  match u with
  | .alwaysRaise m => .error (.userErr m)
  | .requireOwnMember a =>
    if hasOwn s c a then .ok () else .error (.userErr a)

/-- The `for name in final_methods: if name in overrides` loop of
`_forbid_overriding_finals`: the first registered name declared in the
class's own namespace. -/
def firstViolationA (s : AState) (c : Nat) : List String → Option String
  | [] => none
  | n :: t => if hasOwn s c n then some n else firstViolationA s c t

/-- Invoke an `__init_subclass__` hook on a class.  `_forbid_overriding_finals`
reads the registry visible from the class (`getattr` default: empty), raises
on the first final name found in `vars(cls)`, and otherwise delegates to the
stored `__runtime_old_init_subclass__` bound method (calling it on the class
it was bound to when stored).  Fuel bounds the delegation depth, mirroring
Python's recursion limit. -/
def runHookA : Nat → AState → Hook → Nat → Except PyErr Unit
  | _, _, .dflt, _ => .ok ()
  | _, s, .forbidSub, c => .error (.cannotSubclass (clsNameOf s c))
  | _, s, .user u, c => evalUHookA s u c
  | 0, _, .forbidOverride, _ => .error .recursionDepth
  | fuel + 1, s, .forbidOverride, c =>
    let names := match findRegA s (chainA s c) with
      | some rid => regNames s rid
      | none => []
    match firstViolationA s c names with
    | some n => .error (.cannotOverride n (clsNameOf s c))
    | none =>
      match findOldA s (chainA s c) with
      | none => .ok ()
      | some (h, bnd) => runHookA fuel s h bnd

def freshIdA (s : AState) : Nat := freshNat s.classes

/-- The ancestor chain a new class receives from its base. -/
def ancsFor (s : AState) : Option Nat → List Nat
  | none => []
  | some p => p :: (((getC s p).map AClass.ancs).getD [])

def parentOkA (s : AState) : Option Nat → Bool
  | none => true
  | some p => (getC s p).isSome

/-- The fresh type object a `class` statement creates, before `__set_name__`
hooks run. -/
def mkCandidateA (s : AState) (d : ClassDef) : AClass :=
  { modName := d.modName, clsName := d.clsName,
    ancs := ancsFor s d.parent, dict := buildNs d.decls,
    initSub := d.bodyHook.map Hook.user,
    oldInitSub := none, reg := none, flagged := false }

/-- The state after executing the class body (every `@final` decoration sets
`__runtime_is_final__` on its resolved target) and allocating the type
object. -/
def bodyStateA (s : AState) (d : ClassDef) : AState :=
  { classes := s.classes ++ [(freshIdA s, mkCandidateA s d)], regs := s.regs,
    flaggedFns := s.flaggedFns ++ (d.decls.filter Decl.marked).map (fun q => q.shape.resolve) }

/-- The class-level attribute `_Final.__original_target__` at the time the
`__set_name__` hooks run: the target of the last `@final` decoration the
body executed. -/
def origVofA (d : ClassDef) : Val :=
  (((d.decls.filter Decl.marked).getLast?).map (fun q => q.shape.toVal)).getD (.fnV 0)

/-- The state after all `__set_name__` hooks of the new type have run. -/
def afterSetNamesA (s : AState) (d : ClassDef) : AState :=
  runSetNamesA (bodyStateA s d) (freshIdA s) (origVofA d) (buildNs d.decls)

/-- The outcome of invoking the base's `__init_subclass__` on the new type. -/
def hookResA (s : AState) (d : ClassDef) : Except PyErr Unit :=
  match d.parent with
  | none => Except.ok ()
  | some p =>
    runHookA ((afterSetNamesA s d).classes.length + 1) (afterSetNamesA s d)
      (findHookA (afterSetNamesA s d) (chainA (afterSetNamesA s d) p)) (freshIdA s)

/-- Executing a `class` statement under the package implementation:
evaluate the body (decorations set `__runtime_is_final__` on every resolved
target and leave `_Final` wrappers in the namespace), create the type
object, run `__set_name__` for each wrapper, then invoke the base's
`__init_subclass__` on the new type.  On an error the class statement fails:
the new type object is discarded, but side effects already performed on
other objects (function flags, registry contents) persist. -/
def defineClassA (s : AState) (d : ClassDef) : Except PyErr Nat × AState :=
  if parentOkA s d.parent = false then (.error .missingParent, s)
  else
    match hookResA s d with
    | .ok _ => (.ok (freshIdA s), afterSetNamesA s d)
    | .error e =>
      (.error e, { afterSetNamesA s d with
        classes := kdel (afterSetNamesA s d).classes (freshIdA s) })

/-- `final` applied to a class object: set `__runtime_is_final__` on it and
replace its `__init_subclass__` with `_forbid_subclassing`. -/
def sealClassA (s : AState) (c : Nat) : AState :=
  match getC s c with
  | none => s
  | some k =>
    let k1 : AClass := { k with flagged := true, initSub := some Hook.forbidSub }
    { s with classes := kset s.classes c k1 }

/-- A program step: a (possibly `@final`-decorated) class statement. -/
inductive Op
  | defc (d : ClassDef) (markFinal : Bool)

/-- Run one statement; the second component is the log of class ids that
were passed through the marking API as whole types. -/
def stepA (acc : AState × List Nat) (op : Op) : AState × List Nat :=
  match op with
  | .defc d mk =>
    let r := defineClassA acc.1 d
    match r.1, mk with
    | .ok cid, true => (sealClassA r.2 cid, acc.2 ++ [cid])
    | _, _ => (r.2, acc.2)

def runA (p : List Op) : AState × List Nat := p.foldl stepA (initA, [])

/-- The resolved callables of all `@final` member decorations a program
executes (the targets passed through the marking API as members). -/
def opMarkedResolves : Op → List Nat
  | .defc d _ => (d.decls.filter Decl.marked).map (fun q => q.shape.resolve)

def progMarkedResolves (p : List Op) : List Nat :=
  (p.map opMarkedResolves).flatten

/-- `is_final` on a function object: `hasattr(f, "__runtime_is_final__")`. -/
def isFinalFnA (s : AState) (f : Nat) : Bool := decide (f ∈ s.flaggedFns)

def flaggedOfA (s : AState) (c : Nat) : Bool :=
  ((getC s c).map AClass.flagged).getD false

/-- `is_final` on a class object: `hasattr` walks the lookup chain. -/
def isFinalClsA (s : AState) (c : Nat) : Bool :=
  (chainA s c).any (flaggedOfA s)

/-- Attribute lookup of a member name along the chain, without descriptor
resolution. -/
def rawGetattrA (s : AState) : List Nat → String → Option Val
  | [], _ => none
  | c :: t, n =>
    match (getC s c).map AClass.dict with
    | none => rawGetattrA s t n
    | some dct =>
      match kget dct n with
      | some v => some v
      | none => rawGetattrA s t n

/-- `getattr(cls, name)` with descriptor resolution for class access. -/
def classGetattrA (s : AState) (c : Nat) (n : String) : Option Val :=
  (rawGetattrA s (chainA s c) n).map (classAccess c)

/-- `get_final_methods(target)`: empty if `hasattr` fails, otherwise
`getattr(target, name)` for every name in the registry found by inherited
lookup. -/
def getFinalMethodsA (s : AState) (c : Nat) : List (Option Val) :=
  match findRegA s (chainA s c) with
  | none => []
  | some rid => (regNames s rid).map (classGetattrA s c)

end Pkg

namespace Src

/-! ## Model B: the refactored module `src/runtime_final.py` -/

/-- An `__init_subclass__` hook value of the refactored module.  Its
`_forbid_overriding_finals` is a closure created per patched class, capturing
`old_init_subclass = owner.__init_subclass__` as a bound method: the hook it
found and the class it was bound to. -/
inductive BHook
  | dflt
  | forbidSub
  | forbidOverride (oldHook : BHook) (oldBound : Nat)
  | user (u : UHook)
deriving DecidableEq

/-- A class object of the refactored model.  The registry heap entries map a
member name to the qualified name (`module.ClassName`) of the class that
finalised it. -/
structure BClass where
  modName : String
  clsName : String
  ancs : List Nat
  dict : List (String × Val)
  initSub : Option BHook
  reg : Option Nat
deriving DecidableEq

structure BState where
  classes : List (Nat × BClass)
  regs : List (Nat × List (String × String))
deriving DecidableEq

def initB : BState := { classes := [], regs := [] }

def getB (s : BState) (c : Nat) : Option BClass := kget s.classes c

def bchain (s : BState) (c : Nat) : List Nat :=
  c :: (((getB s c).map BClass.ancs).getD [])

def findRegB (s : BState) : List Nat → Option Nat
  | [] => none
  | c :: t =>
    match (getB s c).bind BClass.reg with
    | some r => some r
    | none => findRegB s t

def findHookB (s : BState) : List Nat → BHook
  | [] => .dflt
  | c :: t =>
    match (getB s c).bind BClass.initSub with
    | some h => h
    | none => findHookB s t

def bdictOf (s : BState) (c : Nat) : List (String × Val) :=
  ((getB s c).map BClass.dict).getD []

def bhasOwn (s : BState) (c : Nat) (n : String) : Bool :=
  (kget (bdictOf s c) n).isSome

def bNameOf (s : BState) (c : Nat) : String :=
  ((getB s c).map BClass.clsName).getD ""

def bQualOf (s : BState) (c : Nat) : String :=
  match getB s c with
  | none => ""
  | some k => qualOf k.modName k.clsName

def bregPairs (s : BState) (rid : Nat) : List (String × String) :=
  (kget s.regs rid).getD []

/-- The patching step at the top of the refactored `_Final.__set_name__`: if
no class in the owner's lookup chain carries `__runtime_final_methods__`,
the owner gets a fresh empty registry and its `__init_subclass__` is
replaced by a `_forbid_overriding_finals` closure that captured the previous
hook as a method bound to the owner. -/
def patchB (s : BState) (owner : Nat) : BState :=
  match getB s owner with
  | none => s
  | some k =>
    match findRegB s (bchain s owner) with
    | some _ => s
    | none =>
      let rid := freshNat s.regs
      let oldH := findHookB s (bchain s owner)
      let k1 : BClass := { k with reg := some rid, initSub := some (BHook.forbidOverride oldH owner) }
      { s with regs := s.regs ++ [(rid, [])], classes := kset s.classes owner k1 }

/-- `_Final.__set_name__(self, owner, name)` of the refactored module.
After the patching step, if the name is already registered a `RuntimeError`
is raised; otherwise the name is registered under the owner's qualified name
and the original target is stored back into the owner's namespace
(`self.__target`, an instance attribute, so each wrapper restores its own
target). -/
def setNameB (s : BState) (owner : Nat) (n : String) (origV : Val) :
    Except PyErr Unit × BState :=
  match getB s owner with
  | none => (.ok (), s)
  | some k =>
    let s1 := patchB s owner
    match findRegB s1 (bchain s1 owner) with
    | none => (.ok (), s1)
    | some rid =>
      if (kget (bregPairs s1 rid) n).isSome then
        (.error (.cannotOverride n k.clsName), s1)
      else
        match getB s1 owner with
        | none => (.ok (), s1)
        | some k2 =>
          let regs2 := kupd s1.regs rid (fun l => l ++ [(n, qualOf k.modName k.clsName)])
          let k3 : BClass := { k2 with dict := kset k2.dict n origV }
          (.ok (), { s1 with regs := regs2, classes := kset s1.classes owner k3 })

/-- Run `__set_name__` for every `_Final` namespace entry in order; the first
error aborts type creation.  Each wrapper stores back its own original
target. -/
def runSetNamesB (s : BState) (owner : Nat) :
    List (String × Val) → Except PyErr Unit × BState
  | [] => (.ok (), s)
  | (n, .finalSlot sh) :: t =>
    match setNameB s owner n sh.toVal with
    | (.ok _, s') => runSetNamesB s' owner t
    | (.error e, s') => (.error e, s')
  | _ :: t => runSetNamesB s owner t

def evalUHookB (s : BState) (u : UHook) (c : Nat) : Except PyErr Unit :=
  match u with
  | .alwaysRaise m => .error (.userErr m)
  | .requireOwnMember a =>
    if bhasOwn s c a then .ok () else .error (.userErr a)

/-- The check loop of the refactored `_forbid_overriding_finals`: the first
registered name that the class declares in its own namespace while the
registered finalising qualified name differs from the class's own. -/
def firstViolB (s : BState) (c : Nat) (q : String) :
    List (String × String) → Option String
  | [] => none
  | (n, qn) :: t =>
    if bhasOwn s c n ∧ qn ≠ q then some n else firstViolB s c q t

/-- Invoke an `__init_subclass__` hook of the refactored module on a class.
The closure delegates unconditionally to the captured bound method, calling
it with no arguments, so the delegated hook runs on the class it was bound
to (the patched owner), not on the new subtype.  The second component is
the trace of unrelated user hooks invoked, with their receivers. -/
def runHookB (s : BState) : BHook → Nat → Except PyErr Unit × List (UHook × Nat)
  | .dflt, _ => (.ok (), [])
  | .forbidSub, c => (.error (.cannotSubclass (bNameOf s c)), [])
  | .user u, c => (evalUHookB s u c, [(u, c)])
  | .forbidOverride old bnd, c =>
    let pairs := match findRegB s (bchain s c) with
      | some rid => bregPairs s rid
      | none => []
    match firstViolB s c (bQualOf s c) pairs with
    | some n => (.error (.cannotOverride n (bNameOf s c)), [])
    | none => runHookB s old bnd

def freshIdB (s : BState) : Nat := freshNat s.classes

def ancsForB (s : BState) : Option Nat → List Nat
  | none => []
  | some p => p :: (((getB s p).map BClass.ancs).getD [])

def parentOkB (s : BState) : Option Nat → Bool
  | none => true
  | some p => (getB s p).isSome

/-- The fresh type object of the refactored model. -/
def mkCandidateB (s : BState) (d : ClassDef) : BClass :=
  { modName := d.modName, clsName := d.clsName, ancs := ancsForB s d.parent,
    dict := buildNs d.decls, initSub := d.bodyHook.map BHook.user, reg := none }

def bodyStateB (s : BState) (d : ClassDef) : BState :=
  { classes := s.classes ++ [(freshIdB s, mkCandidateB s d)], regs := s.regs }

/-- Outcome and state of running all `__set_name__` hooks of the new type. -/
def setNamesResB (s : BState) (d : ClassDef) : Except PyErr Unit × BState :=
  runSetNamesB (bodyStateB s d) (freshIdB s) (buildNs d.decls)

/-- Executing a `class` statement under the refactored module: build the
namespace, create the type object, run `__set_name__` hooks (the first error
discards the new type), then invoke the base's `__init_subclass__` on the
new type.  Returns the result, the final state, and the trace of unrelated
user hooks invoked during the `__init_subclass__` phase. -/
def defineClassB (s : BState) (d : ClassDef) :
    Except PyErr Nat × BState × List (UHook × Nat) :=
  if parentOkB s d.parent = false then (.error .missingParent, s, [])
  else
    match setNamesResB s d with
    | (.error e, s2) => (.error e, { s2 with classes := kdel s2.classes (freshIdB s) }, [])
    | (.ok _, s2) =>
      match d.parent with
      | none => (.ok (freshIdB s), s2, [])
      | some p =>
        match runHookB s2 (findHookB s2 (bchain s2 p)) (freshIdB s) with
        | (.ok _, tr) => (.ok (freshIdB s), s2, tr)
        | (.error e, tr) => (.error e, { s2 with classes := kdel s2.classes (freshIdB s) }, tr)

end Src

namespace Pkg

/-! ## Lemmas about the package model -/

theorem kdel_kset_self {α β : Type} [DecidableEq α] (l : List (α × β)) (k : α) (v : β) :
    kdel (kset l k v) k = kdel l k := by
  induction l with
  | nil => simp [kset, kdel]
  | cons hd t ih =>
    obtain ⟨a, b⟩ := hd
    by_cases ha : a = k
    · simp [kset, ha, kdel]
    · simp [kset, ha, kdel, ih]

theorem setNameA_classes_other (s : AState) (o : Nat) (n : String) (v : Val) (x : Nat)
    (hx : x ≠ o) : getC (setNameA s o n v) x = getC s x := by
  unfold setNameA
  cases h : getC s o with
  | none => rfl
  | some k => simp [getC, kget_kset_other _ _ _ _ hx]

theorem setNameA_flagged (s : AState) (o : Nat) (n : String) (v : Val) :
    (setNameA s o n v).flaggedFns = s.flaggedFns := by
  unfold setNameA
  cases h : getC s o with
  | none => rfl
  | some k => rfl

theorem setNameA_kdel (s : AState) (o : Nat) (n : String) (v : Val) :
    kdel (setNameA s o n v).classes o = kdel s.classes o := by
  unfold setNameA
  cases h : getC s o with
  | none => rfl
  | some k => simp [kdel_kset_self]

theorem runSetNamesA_classes_other (o : Nat) (v : Val) (l : List (String × Val))
    (s : AState) (x : Nat) (hx : x ≠ o) :
    getC (runSetNamesA s o v l) x = getC s x := by
  induction l generalizing s with
  | nil => rfl
  | cons hd t ih =>
    obtain ⟨n, w⟩ := hd
    cases w with
    | finalSlot sh =>
      exact (ih (setNameA s o n v)).trans (setNameA_classes_other s o n v x hx)
    | fnV f => exact ih s
    | accessorV f => exact ih s
    | staticV f => exact ih s
    | classV f => exact ih s
    | boundV f r => exact ih s

theorem runSetNamesA_flagged (o : Nat) (v : Val) (l : List (String × Val)) (s : AState) :
    (runSetNamesA s o v l).flaggedFns = s.flaggedFns := by
  induction l generalizing s with
  | nil => rfl
  | cons hd t ih =>
    obtain ⟨n, w⟩ := hd
    cases w with
    | finalSlot sh => exact (ih (setNameA s o n v)).trans (setNameA_flagged s o n v)
    | fnV f => exact ih s
    | accessorV f => exact ih s
    | staticV f => exact ih s
    | classV f => exact ih s
    | boundV f r => exact ih s

theorem runSetNamesA_kdel (o : Nat) (v : Val) (l : List (String × Val)) (s : AState) :
    kdel (runSetNamesA s o v l).classes o = kdel s.classes o := by
  induction l generalizing s with
  | nil => rfl
  | cons hd t ih =>
    obtain ⟨n, w⟩ := hd
    cases w with
    | finalSlot sh => exact (ih (setNameA s o n v)).trans (setNameA_kdel s o n v)
    | fnV f => exact ih s
    | accessorV f => exact ih s
    | staticV f => exact ih s
    | classV f => exact ih s
    | boundV f r => exact ih s

/-- The explicit class record `__set_name__` leaves at the owner. -/
theorem setNameA_owner_some (s : AState) (o : Nat) (n : String) (v : Val) (k : AClass)
    (h : getC s o = some k) :
    getC (setNameA s o n v) o = some
      { modName := k.modName, clsName := k.clsName, ancs := k.ancs,
        dict := kset k.dict n v, initSub := some Hook.forbidOverride,
        oldInitSub := some (findHookA s (chainA s o), o),
        reg := match findRegA s (chainA s o) with
          | some _ => k.reg
          | none => some (freshNat s.regs),
        flagged := k.flagged } := by
  unfold setNameA
  rw [h]
  simp [getC, kget_kset_self]

/-- `__set_name__` rewrites only the registry state, the hook slots and the
member dict of the owner; the owner's identity fields survive. -/
theorem setNameA_owner_fields (s : AState) (o : Nat) (n : String) (v : Val) (k : AClass)
    (h : getC s o = some k) :
    ∃ k', getC (setNameA s o n v) o = some k' ∧ k'.modName = k.modName ∧
      k'.clsName = k.clsName ∧ k'.ancs = k.ancs ∧ k'.flagged = k.flagged ∧
      k'.dict = kset k.dict n v :=
  ⟨_, setNameA_owner_some s o n v k h, rfl, rfl, rfl, rfl, rfl⟩

theorem runSetNamesA_owner_fields (o : Nat) (v : Val) (l : List (String × Val))
    (s : AState) (k : AClass) (h : getC s o = some k) :
    ∃ k', getC (runSetNamesA s o v l) o = some k' ∧ k'.modName = k.modName ∧
      k'.clsName = k.clsName ∧ k'.ancs = k.ancs ∧ k'.flagged = k.flagged ∧
      (∀ x w, kget k.dict x = some w → (kget k'.dict x).isSome = true) := by
  induction l generalizing s k with
  | nil => exact ⟨k, h, rfl, rfl, rfl, rfl, fun x w hw => by simp [hw]⟩
  | cons hd t ih =>
    obtain ⟨n, w⟩ := hd
    cases w with
    | finalSlot sh =>
      obtain ⟨k1, hk1, hm, hc, ha, hf, hd1⟩ := setNameA_owner_fields s o n v k h
      obtain ⟨k', hk', hm', hc', ha', hf', hd'⟩ := ih (setNameA s o n v) k1 hk1
      refine ⟨k', hk', hm'.trans hm, hc'.trans hc,
        ha'.trans ha, hf'.trans hf, ?_⟩
      intro x u hu
      by_cases hxn : x = n
      · subst hxn
        exact hd' x v (by rw [hd1]; exact kget_kset_self _ _ _)
      · exact hd' x u (by rw [hd1, kget_kset_other _ _ _ _ hxn]; exact hu)
    | fnV f => exact ih s k h
    | accessorV f => exact ih s k h
    | staticV f => exact ih s k h
    | classV f => exact ih s k h
    | boundV f r => exact ih s k h

theorem findRegA_congr (s s' : AState) (L : List Nat)
    (h : ∀ a ∈ L, getC s' a = getC s a) : findRegA s' L = findRegA s L := by
  induction L with
  | nil => rfl
  | cons c t ih =>
    rw [findRegA, findRegA, h c (List.mem_cons_self c t),
      ih (fun a ha => h a (List.mem_cons_of_mem c ha))]

theorem findHookA_congr (s s' : AState) (L : List Nat)
    (h : ∀ a ∈ L, getC s' a = getC s a) : findHookA s' L = findHookA s L := by
  induction L with
  | nil => rfl
  | cons c t ih =>
    rw [findHookA, findHookA, h c (List.mem_cons_self c t),
      ih (fun a ha => h a (List.mem_cons_of_mem c ha))]

theorem getC_append_other (s : AState) (cid : Nat) (k : AClass) (x : Nat)
    (hx : x ≠ cid) :
    kget (s.classes ++ [(cid, k)]) x = kget s.classes x := by
  rw [kget_append]
  cases h : kget s.classes x with
  | none =>
    simp [kget, Ne.symm hx]
  | some v => rfl

theorem kget_append_self {α β : Type} [DecidableEq α] (l : List (α × β)) (k : α) (v : β)
    (h : kget l k = none) : kget (l ++ [(k, v)]) k = some v := by
  rw [kget_append]
  simp [h, kget]

theorem runHookA_forbidSub (fuel : Nat) (s : AState) (c : Nat) :
    runHookA fuel s .forbidSub c = .error (.cannotSubclass (clsNameOf s c)) := by
  cases fuel <;> rfl

theorem runHookA_dflt (fuel : Nat) (s : AState) (c : Nat) :
    runHookA fuel s .dflt c = .ok () := by
  cases fuel <;> rfl

theorem runHookA_user (fuel : Nat) (s : AState) (u : UHook) (c : Nat) :
    runHookA fuel s (.user u) c = evalUHookA s u c := by
  cases fuel <;> rfl

theorem runHookA_override_succ (fuel : Nat) (s : AState) (c : Nat) :
    runHookA (fuel + 1) s .forbidOverride c =
      (match firstViolationA s c
          (match findRegA s (chainA s c) with
            | some rid => regNames s rid
            | none => []) with
        | some n => Except.error (.cannotOverride n (clsNameOf s c))
        | none =>
          match findOldA s (chainA s c) with
          | none => Except.ok ()
          | some (h, bnd) => runHookA fuel s h bnd) := rfl

/-- If some registered name is declared in the class's own namespace, the
check loop reports a violation. -/
theorem firstViolationA_some (s : AState) (c : Nat) (L : List String) (m : String)
    (hm : m ∈ L) (hv : hasOwn s c m = true) :
    ∃ n, firstViolationA s c L = some n ∧ hasOwn s c n = true := by
  induction L with
  | nil => cases hm
  | cons a t ih =>
    by_cases ha : hasOwn s c a = true
    · exact ⟨a, by simp [firstViolationA, ha], ha⟩
    · rcases List.mem_cons.mp hm with he | ht
      · subst he
        exact absurd hv ha
      · obtain ⟨n, hn, hvn⟩ := ih ht
        exact ⟨n, by simp [firstViolationA, ha, hn], hvn⟩

/-- Pre-existing class records survive body execution of a new class. -/
theorem bodyStateA_other (s : AState) (d : ClassDef) (x : Nat) (k : AClass)
    (hx : getC s x = some k) : getC (bodyStateA s d) x = some k := by
  have hne := kget_ne_fresh s.classes x k hx
  show kget (s.classes ++ [(freshIdA s, mkCandidateA s d)]) x = some k
  rw [getC_append_other s (freshIdA s) _ x hne]
  exact hx

/-- Pre-existing class records survive the `__set_name__` phase as well:
those hooks only mutate the new class and the registry heap. -/
theorem afterSetNamesA_other (s : AState) (d : ClassDef) (x : Nat) (k : AClass)
    (hx : getC s x = some k) : getC (afterSetNamesA s d) x = some k := by
  unfold afterSetNamesA
  have hne : x ≠ freshIdA s := kget_ne_fresh s.classes x k hx
  rw [runSetNamesA_classes_other _ _ _ _ x hne]
  exact bodyStateA_other s d x k hx

theorem bodyStateA_cand (s : AState) (d : ClassDef) :
    getC (bodyStateA s d) (freshIdA s) = some (mkCandidateA s d) := by
  show kget (s.classes ++ [(freshIdA s, mkCandidateA s d)]) (freshIdA s) = _
  exact kget_append_self _ _ _ (kget_fresh s.classes)

theorem afterSetNamesA_cand (s : AState) (d : ClassDef) :
    ∃ k', getC (afterSetNamesA s d) (freshIdA s) = some k' ∧
      k'.modName = d.modName ∧ k'.clsName = d.clsName ∧
      k'.ancs = ancsFor s d.parent ∧ k'.flagged = false ∧
      (∀ x w, kget (buildNs d.decls) x = some w → (kget k'.dict x).isSome = true) :=
  runSetNamesA_owner_fields (freshIdA s) (origVofA d) (buildNs d.decls)
    (bodyStateA s d) (mkCandidateA s d) (bodyStateA_cand s d)

/-- Discarding the new type restores the original class table. -/
theorem afterSetNamesA_kdel (s : AState) (d : ClassDef) :
    kdel (afterSetNamesA s d).classes (freshIdA s) = s.classes := by
  unfold afterSetNamesA
  rw [runSetNamesA_kdel]
  show kdel (s.classes ++ [(freshIdA s, mkCandidateA s d)]) (freshIdA s) = s.classes
  exact kdel_append_one _ _ _ (kget_fresh s.classes)

/-- C1: for every type `T` sealed as a whole type (its `__init_subclass__`
is `_forbid_subclassing`, as installed by `final` on a class), any attempt
to define a subtype of `T` raises the sealed-type violation
(`RuntimeError: Cannot subclass the final class ...`) at subtype-definition
time, the new type object is discarded, and the class table — in particular
`T`'s own record, hence its members and instantiation behaviour — is exactly
as before the attempt. -/
theorem C1_sealed_type_blocks_subtypes (s : AState) (d : ClassDef) (T : Nat) (k : AClass)
    (hp : d.parent = some T) (hk : getC s T = some k)
    (hseal : k.initSub = some Hook.forbidSub) :
    (defineClassA s d).1 = .error (.cannotSubclass d.clsName) ∧
    (defineClassA s d).2.classes = s.classes := by
  have hT2 : getC (afterSetNamesA s d) T = some k := afterSetNamesA_other s d T k hk
  have hchain : chainA (afterSetNamesA s d) T = T :: k.ancs := by
    unfold chainA
    rw [hT2]
    rfl
  have hhook : findHookA (afterSetNamesA s d) (chainA (afterSetNamesA s d) T) =
      .forbidSub := by
    rw [hchain]
    simp [findHookA, hT2, hseal]
  obtain ⟨k', hk', hm', hc', _, _, _⟩ := afterSetNamesA_cand s d
  have hname : clsNameOf (afterSetNamesA s d) (freshIdA s) = d.clsName := by
    unfold clsNameOf
    rw [hk']
    exact hc'
  have hres : hookResA s d = .error (.cannotSubclass d.clsName) := by
    have hstep : hookResA s d = runHookA ((afterSetNamesA s d).classes.length + 1)
        (afterSetNamesA s d)
        (findHookA (afterSetNamesA s d) (chainA (afterSetNamesA s d) T)) (freshIdA s) := by
      unfold hookResA
      rw [hp]
    rw [hstep, hhook, runHookA_forbidSub, hname]
  have hpo : parentOkA s d.parent = true := by
    rw [hp]
    simp [parentOkA, hk]
  have hdef : defineClassA s d =
      (.error (.cannotSubclass d.clsName),
       { afterSetNamesA s d with
         classes := kdel (afterSetNamesA s d).classes (freshIdA s) }) := by
    unfold defineClassA
    rw [hpo, hres]
    rfl
  rw [hdef]
  exact ⟨rfl, afterSetNamesA_kdel s d⟩

/-- The concrete state of spec scenario A: `@final class Base` in module
`m`. -/
def c1Base : ClassDef :=
  { modName := "m", clsName := "Base", parent := none, decls := [], bodyHook := none }

def c1St : AState := (stepA (initA, []) (Op.defc c1Base true)).1

def c1Der : ClassDef :=
  { modName := "m", clsName := "Derived", parent := some 1, decls := [], bodyHook := none }

def c1K : AClass :=
  { modName := "m", clsName := "Base", ancs := [], dict := [],
    initSub := some Hook.forbidSub, oldInitSub := none, reg := none, flagged := true }

/-- Witness for C1: defining `class Derived(Base)` after sealing `Base`
raises the sealed-type violation and leaves the class table untouched. -/
theorem C1_witness :
    c1Der.parent = some 1 ∧ getC c1St 1 = some c1K ∧
    c1K.initSub = some Hook.forbidSub ∧
    ((defineClassA c1St c1Der).1 = .error (.cannotSubclass "Derived") ∧
     (defineClassA c1St c1Der).2.classes = c1St.classes) :=
  ⟨rfl, by decide, rfl,
    C1_sealed_type_blocks_subtypes c1St c1Der 1 c1K rfl (by decide) rfl⟩

theorem kget_mem {α β : Type} [DecidableEq α] (l : List (α × β)) (k : α) (v : β)
    (h : kget l k = some v) : (k, v) ∈ l := by
  induction l with
  | nil => simp [kget] at h
  | cons hd t ih =>
    obtain ⟨a, b⟩ := hd
    by_cases ha : a = k
    · subst ha
      simp [kget] at h
      simp [h]
    · simp [kget, ha] at h
      exact List.mem_cons_of_mem _ (ih h)

/-- Once the owner's dict holds `v` at `n`, or some pending `_Final` entry is
named `n`, the dict holds `v` at `n` after the `__set_name__` phase: every
wrapper writes back the same shared `__original_target__`. -/
theorem runSetNamesA_lastTarget (o : Nat) (v : Val) (n : String)
    (l : List (String × Val)) :
    ∀ (s : AState) (k : AClass), getC s o = some k →
    ((∃ sh, (n, Val.finalSlot sh) ∈ l) ∨ kget k.dict n = some v) →
    ∃ k', getC (runSetNamesA s o v l) o = some k' ∧ kget k'.dict n = some v := by
  induction l with
  | nil =>
    intro s k hk hc
    rcases hc with ⟨sh, hm⟩ | hv
    · cases hm
    · exact ⟨k, hk, hv⟩
  | cons hd t ih =>
    intro s k hk hc
    obtain ⟨m, w⟩ := hd
    cases w with
    | finalSlot sh =>
      obtain ⟨k1, hk1, _, _, _, _, hd1⟩ := setNameA_owner_fields s o m v k hk
      by_cases hmn : m = n
      · subst hmn
        refine ih (setNameA s o m v) k1 hk1 (Or.inr ?_)
        rw [hd1]
        exact kget_kset_self _ _ _
      · refine ih (setNameA s o m v) k1 hk1 ?_
        rcases hc with ⟨sh', hm⟩ | hv
        · rcases List.mem_cons.mp hm with he | ht
          · exact absurd (congrArg Prod.fst he).symm hmn
          · exact Or.inl ⟨sh', ht⟩
        · refine Or.inr ?_
          rw [hd1, kget_kset_other _ _ _ _ (fun hh => hmn hh.symm)]
          exact hv
    | fnV f =>
      refine ih s k hk ?_
      rcases hc with ⟨sh', hm⟩ | hv
      · rcases List.mem_cons.mp hm with he | ht
        · cases he
        · exact Or.inl ⟨sh', ht⟩
      · exact Or.inr hv
    | accessorV f =>
      refine ih s k hk ?_
      rcases hc with ⟨sh', hm⟩ | hv
      · rcases List.mem_cons.mp hm with he | ht
        · cases he
        · exact Or.inl ⟨sh', ht⟩
      · exact Or.inr hv
    | staticV f =>
      refine ih s k hk ?_
      rcases hc with ⟨sh', hm⟩ | hv
      · rcases List.mem_cons.mp hm with he | ht
        · cases he
        · exact Or.inl ⟨sh', ht⟩
      · exact Or.inr hv
    | classV f =>
      refine ih s k hk ?_
      rcases hc with ⟨sh', hm⟩ | hv
      · rcases List.mem_cons.mp hm with he | ht
        · cases he
        · exact Or.inl ⟨sh', ht⟩
      · exact Or.inr hv
    | boundV f r =>
      refine ih s k hk ?_
      rcases hc with ⟨sh', hm⟩ | hv
      · rcases List.mem_cons.mp hm with he | ht
        · cases he
        · exact Or.inl ⟨sh', ht⟩
      · exact Or.inr hv

/-- A successful `class` statement returns the fresh id and the
post-`__set_name__` state. -/
theorem defineClassA_ok (s : AState) (d : ClassDef) (cid : Nat)
    (h : (defineClassA s d).1 = .ok cid) :
    cid = freshIdA s ∧ (defineClassA s d).2 = afterSetNamesA s d := by
  unfold defineClassA at h ⊢
  by_cases hpo : parentOkA s d.parent = false
  · rw [if_pos hpo] at h
    exact absurd h (by simp)
  · rw [if_neg hpo] at h ⊢
    cases hres : hookResA s d with
    | ok u =>
      rw [hres] at h
      simp at h
      exact ⟨h.symm, rfl⟩
    | error e =>
      rw [hres] at h
      simp at h

/-- C9: the package `_Final` wrapper stores the decoration target in
attributes of the wrapper class itself (`cls.__original_target__` in
`_Final.__new__`), so by the time `__set_name__` hooks run, all of them read
the target of the last-executed `@final` decoration: after a successful
definition every name whose namespace entry was a `_Final` wrapper is bound
in the class namespace to that one shared object. -/
theorem C9_final_names_bound_to_last_target (s : AState) (d : ClassDef) (cid : Nat)
    (n : String) (sh : Shape) (q : Decl)
    (hok : (defineClassA s d).1 = .ok cid)
    (hns : kget (buildNs d.decls) n = some (.finalSlot sh))
    (hlast : (d.decls.filter Decl.marked).getLast? = some q) :
    ∃ k', getC (defineClassA s d).2 cid = some k' ∧
      kget k'.dict n = some q.shape.toVal := by
  obtain ⟨hcid, hst⟩ := defineClassA_ok s d cid hok
  subst hcid
  rw [hst]
  have horig : origVofA d = q.shape.toVal := by
    unfold origVofA
    rw [hlast]
    rfl
  have hmem : (n, Val.finalSlot sh) ∈ buildNs d.decls := kget_mem _ _ _ hns
  obtain ⟨k', h1, h2⟩ := runSetNamesA_lastTarget (freshIdA s) (origVofA d) n
    (buildNs d.decls) (bodyStateA s d) (mkCandidateA s d) (bodyStateA_cand s d)
    (Or.inl ⟨sh, hmem⟩)
  exact ⟨k', h1, by rw [← horig]; exact h2⟩

/-- The class body of the C9 witness: two distinct `@final` methods. -/
def c9Def : ClassDef :=
  { modName := "m", clsName := "C", parent := none,
    decls := [⟨"f", .plainFn 1, true⟩, ⟨"g", .plainFn 2, true⟩], bodyHook := none }

/-- Witness for C9: with `@final def f` (function 1) then `@final def g`
(function 2), the name `f` ends up bound to function 2, the last-decorated
target. -/
theorem C9_witness :
    (defineClassA initA c9Def).1 = .ok 1 ∧
    kget (buildNs c9Def.decls) "f" = some (.finalSlot (.plainFn 1)) ∧
    (c9Def.decls.filter Decl.marked).getLast? = some ⟨"g", .plainFn 2, true⟩ ∧
    (∃ k', getC (defineClassA initA c9Def).2 1 = some k' ∧
      kget k'.dict "f" = some ((Shape.plainFn 2).toVal)) :=
  ⟨by decide, by decide, by decide,
    C9_final_names_bound_to_last_target initA c9Def 1 "f" (.plainFn 1)
      ⟨"g", .plainFn 2, true⟩ (by decide) (by decide) (by decide)⟩

/-- The C7 failing input: a class body with two distinct `@final` plain
methods (function 1 under name `f`, function 2 under name `g`), mirroring
the repository's own `NonFinalClass`/`ClassWithFinals` test fixtures. -/
def c7Def : ClassDef :=
  { modName := "m", clsName := "C", parent := none,
    decls := [⟨"f", .plainFn 1, true⟩, ⟨"g", .plainFn 2, true⟩], bodyHook := none }

def c7St : AState := (defineClassA initA c7Def).2

/-- C7 (code-bug evidence): `final` is not transparent in the package
implementation.  After the definition succeeds, attribute access on the
class returns function 2 for *both* names: the member `f` no longer behaves
as its undecorated target (function 1), contradicting the spec's
transparency contract and the repository's own tests, which call each
finalized member and expect its own behaviour. -/
theorem C7_transparency_broken :
    (defineClassA initA c7Def).1 = .ok 1 ∧
    classGetattrA c7St 1 "f" = some (.fnV 2) ∧
    classGetattrA c7St 1 "g" = some (.fnV 2) ∧
    some (Val.fnV 2) ≠ some (Val.fnV 1) :=
  ⟨by decide, by decide, by decide, by decide⟩

theorem addName_self_mem (l : List String) (n : String) : n ∈ addName l n := by
  unfold addName
  split
  · assumption
  · simp

theorem addName_preserve (l : List String) (m n : String) (h : m ∈ l) :
    m ∈ addName l n := by
  unfold addName
  split
  · exact h
  · simp [h]

/-- When a registry is already visible from the owner's ancestor chain, the
whole `__set_name__` phase reuses it: it adds every pending final name to
that registry object in place, never gives the owner a registry of its own,
and touches no other class record. -/
theorem runSetNamesA_regFound (o rid : Nat) (v : Val) (ancs0 : List Nat)
    (l : List (String × Val)) :
    ∀ (s : AState) (k : AClass),
    getC s o = some k → k.reg = none → k.ancs = ancs0 →
    o ∉ ancs0 →
    findRegA s ancs0 = some rid →
    (kget s.regs rid).isSome = true →
    ∃ k', getC (runSetNamesA s o v l) o = some k' ∧ k'.reg = none ∧ k'.ancs = ancs0 ∧
      (kget (runSetNamesA s o v l).regs rid).isSome = true ∧
      (∀ m, m ∈ regNames s rid → m ∈ regNames (runSetNamesA s o v l) rid) ∧
      (∀ m sh, (m, Val.finalSlot sh) ∈ l → m ∈ regNames (runSetNamesA s o v l) rid) := by
  induction l with
  | nil =>
    intro s k hk hreg hancs hno hfind hsome
    exact ⟨k, hk, hreg, hancs, hsome, fun m hm => hm, fun m sh hm => absurd hm (by simp)⟩
  | cons hd t ih =>
    intro s k hk hreg hancs hno hfind hsome
    obtain ⟨m0, w⟩ := hd
    cases w with
    | finalSlot sh0 =>
      have hchain : chainA s o = o :: ancs0 := by
        unfold chainA
        rw [hk]
        simp [hancs]
      have hfound : findRegA s (chainA s o) = some rid := by
        rw [hchain]
        unfold findRegA
        rw [hk]
        simp [hreg, hfind]
      obtain ⟨L, hL⟩ := Option.isSome_iff_exists.mp hsome
      -- the explicit record written by set_name
      have hk1 := setNameA_owner_some s o m0 v k hk
      rw [hfound] at hk1
      have hreg1 : (setNameA s o m0 v).regs = kupd s.regs rid (fun ns => addName ns m0) := by
        unfold setNameA
        rw [hk]
        simp [hfound]
      have hregs_rid : kget (setNameA s o m0 v).regs rid = some (addName L m0) := by
        rw [hreg1, kget_kupd_self, hL]
        rfl
      have hfind1 : findRegA (setNameA s o m0 v) ancs0 = some rid := by
        rw [findRegA_congr s (setNameA s o m0 v) ancs0
          (fun a ha => setNameA_classes_other s o m0 v a (fun he => hno (he ▸ ha)))]
        exact hfind
      obtain ⟨k', h1, h2, h3, h4, h5, h6⟩ := ih (setNameA s o m0 v) _ hk1 hreg hancs hno
        hfind1 (by rw [hregs_rid]; rfl)
      refine ⟨k', h1, h2, h3, h4, ?_, ?_⟩
      · intro m hm
        refine h5 m ?_
        unfold regNames
        rw [hregs_rid]
        unfold regNames at hm
        rw [hL] at hm
        exact addName_preserve L m m0 hm
      · intro m sh hm
        rcases List.mem_cons.mp hm with he | ht
        · have hem : m = m0 := congrArg Prod.fst he
          subst hem
          refine h5 m ?_
          unfold regNames
          rw [hregs_rid]
          exact addName_self_mem L m
        · exact h6 m sh ht
    | fnV f =>
      obtain ⟨k', h1, h2, h3, h4, h5, h6⟩ := ih s k hk hreg hancs hno hfind hsome
      exact ⟨k', h1, h2, h3, h4, h5, fun m sh hm => by
        rcases List.mem_cons.mp hm with he | ht
        · cases he
        · exact h6 m sh ht⟩
    | accessorV f =>
      obtain ⟨k', h1, h2, h3, h4, h5, h6⟩ := ih s k hk hreg hancs hno hfind hsome
      exact ⟨k', h1, h2, h3, h4, h5, fun m sh hm => by
        rcases List.mem_cons.mp hm with he | ht
        · cases he
        · exact h6 m sh ht⟩
    | staticV f =>
      obtain ⟨k', h1, h2, h3, h4, h5, h6⟩ := ih s k hk hreg hancs hno hfind hsome
      exact ⟨k', h1, h2, h3, h4, h5, fun m sh hm => by
        rcases List.mem_cons.mp hm with he | ht
        · cases he
        · exact h6 m sh ht⟩
    | classV f =>
      obtain ⟨k', h1, h2, h3, h4, h5, h6⟩ := ih s k hk hreg hancs hno hfind hsome
      exact ⟨k', h1, h2, h3, h4, h5, fun m sh hm => by
        rcases List.mem_cons.mp hm with he | ht
        · cases he
        · exact h6 m sh ht⟩
    | boundV f r =>
      obtain ⟨k', h1, h2, h3, h4, h5, h6⟩ := ih s k hk hreg hancs hno hfind hsome
      exact ⟨k', h1, h2, h3, h4, h5, fun m sh hm => by
        rcases List.mem_cons.mp hm with he | ht
        · cases he
        · exact h6 m sh ht⟩

/-- Every member of an existing class's lookup chain is distinct from the
fresh id a new class statement allocates. -/
theorem chain_ne_fresh (s : AState) (L : List Nat)
    (hanc : ∀ a ∈ L, (getC s a).isSome = true) :
    ∀ a ∈ L, a ≠ freshIdA s := by
  intro a ha
  obtain ⟨ka, hka⟩ := Option.isSome_iff_exists.mp (hanc a ha)
  exact kget_ne_fresh s.classes a ka hka

/-- The registry heap survives a class statement unchanged in everything the
statement did not explicitly write: regardless of the statement's outcome,
the final registry heap is the one left by the `__set_name__` phase. -/
theorem defineClassA_regs (s : AState) (d : ClassDef)
    (hpo : parentOkA s d.parent = true) :
    (defineClassA s d).2.regs = (afterSetNamesA s d).regs := by
  unfold defineClassA
  rw [if_neg (by simp [hpo] : ¬ parentOkA s d.parent = false)]
  cases hres : hookResA s d with
  | ok u => rfl
  | error e => rfl

/-- C10: the registry attribute is located by inherited attribute lookup
(`hasattr`/plain attribute access), so when a subtype whose ancestor chain
already carries a registry marks a new member final, `__set_name__` adds the
name in place to that ancestor's registry object: the subtype gets no
registry of its own, the registry the ancestor itself sees then contains the
subtype's newly marked name, and that mutation persists in the registry heap
whatever the eventual outcome of the class statement. -/
theorem C10_subtype_marks_go_to_ancestor_registry (s : AState) (d : ClassDef)
    (p A rid : Nat) (kA : AClass) (n : String) (sh : Shape)
    (hp : d.parent = some p)
    (hanc : ∀ a ∈ chainA s p, (getC s a).isSome = true)
    (hreg : findRegA s (chainA s p) = some rid)
    (hA : getC s A = some kA) (hAreg : kA.reg = some rid)
    (hrid : (kget s.regs rid).isSome = true)
    (hdecl : kget (buildNs d.decls) n = some (.finalSlot sh)) :
    (∃ k', getC (afterSetNamesA s d) (freshIdA s) = some k' ∧ k'.reg = none) ∧
    n ∈ regNames (afterSetNamesA s d) rid ∧
    findRegA (afterSetNamesA s d) (chainA (afterSetNamesA s d) A) = some rid ∧
    n ∈ regNames (defineClassA s d).2 rid := by
  have hAncsEq : ancsFor s d.parent = chainA s p := by
    rw [hp]
    unfold ancsFor chainA
    rfl
  have hne := chain_ne_fresh s (chainA s p) hanc
  have hno : freshIdA s ∉ ancsFor s d.parent := by
    rw [hAncsEq]
    intro hmem
    exact hne (freshIdA s) hmem rfl
  have hstable : ∀ a ∈ ancsFor s d.parent, getC (bodyStateA s d) a = getC s a := by
    intro a ha
    rw [hAncsEq] at ha
    show kget (s.classes ++ [(freshIdA s, mkCandidateA s d)]) a = kget s.classes a
    exact getC_append_other s (freshIdA s) _ a (hne a ha)
  have hfind1 : findRegA (bodyStateA s d) (ancsFor s d.parent) = some rid := by
    rw [findRegA_congr s (bodyStateA s d) (ancsFor s d.parent) hstable, hAncsEq]
    exact hreg
  obtain ⟨k', h1, h2, _, _, _, h6⟩ := runSetNamesA_regFound (freshIdA s) rid (origVofA d)
    (ancsFor s d.parent) (buildNs d.decls) (bodyStateA s d) (mkCandidateA s d)
    (bodyStateA_cand s d) rfl rfl hno hfind1 hrid
  have hA' : getC (afterSetNamesA s d) A = some kA := afterSetNamesA_other s d A kA hA
  have hfA : findRegA (afterSetNamesA s d) (chainA (afterSetNamesA s d) A) = some rid := by
    have hch : chainA (afterSetNamesA s d) A = A :: kA.ancs := by
      unfold chainA
      rw [hA']
      rfl
    rw [hch]
    unfold findRegA
    rw [hA']
    simp [hAreg]
  have hmem : n ∈ regNames (afterSetNamesA s d) rid := h6 n sh (kget_mem _ _ _ hdecl)
  have hpo : parentOkA s d.parent = true := by
    rw [hp]
    obtain ⟨kp, hkp⟩ := Option.isSome_iff_exists.mp
      (hanc p (List.mem_cons_self p _))
    simp [parentOkA, hkp]
  have hlast : n ∈ regNames (defineClassA s d).2 rid := by
    unfold regNames
    rw [defineClassA_regs s d hpo]
    exact hmem
  exact ⟨⟨k', h1, h2⟩, hmem, hfA, hlast⟩

/-- C10 witness scenario: `Base` finalises `f` (function 1); `Sub(Base)`
finalises a new member `g` (function 2). -/
def c10Base : ClassDef :=
  { modName := "m", clsName := "Base", parent := none,
    decls := [⟨"f", .plainFn 1, true⟩], bodyHook := none }

def c10St : AState := (defineClassA initA c10Base).2

def c10Sub : ClassDef :=
  { modName := "m", clsName := "Sub", parent := some 1,
    decls := [⟨"g", .plainFn 2, true⟩], bodyHook := none }

def c10KBase : AClass :=
  { modName := "m", clsName := "Base", ancs := [], dict := [("f", .fnV 1)],
    initSub := some Hook.forbidOverride, oldInitSub := some (Hook.dflt, 1),
    reg := some 1, flagged := false }

/-- Witness for C10: after `Sub(Base)`'s `__set_name__` for `g` runs, `Sub`
has no registry of its own and `Base`'s registry object records `g`. -/
theorem C10_witness :
    c10Sub.parent = some 1 ∧
    (∀ a ∈ chainA c10St 1, (getC c10St a).isSome = true) ∧
    findRegA c10St (chainA c10St 1) = some 1 ∧
    getC c10St 1 = some c10KBase ∧ c10KBase.reg = some 1 ∧
    (kget c10St.regs 1).isSome = true ∧
    kget (buildNs c10Sub.decls) "g" = some (.finalSlot (.plainFn 2)) ∧
    ((∃ k', getC (afterSetNamesA c10St c10Sub) (freshIdA c10St) = some k' ∧
        k'.reg = none) ∧
      "g" ∈ regNames (afterSetNamesA c10St c10Sub) 1 ∧
      findRegA (afterSetNamesA c10St c10Sub)
        (chainA (afterSetNamesA c10St c10Sub) 1) = some 1 ∧
      "g" ∈ regNames (defineClassA c10St c10Sub).2 1) :=
  ⟨rfl, by decide, by decide, by decide, rfl, by decide, by decide,
    C10_subtype_marks_go_to_ancestor_registry c10St c10Sub 1 1 1 c10KBase
      "g" (.plainFn 2) rfl (by decide) (by decide) (by decide) rfl
      (by decide) (by decide)⟩

/-- C5 counterexample scenario: `Base` finalises `foo`; `Sub(Base)` declares
and finalises nothing. -/
def c5Base : ClassDef :=
  { modName := "m", clsName := "Base", parent := none,
    decls := [⟨"foo", .plainFn 1, true⟩], bodyHook := none }

def c5St1 : AState := (defineClassA initA c5Base).2

def c5Sub : ClassDef :=
  { modName := "m", clsName := "Sub", parent := some 1, decls := [], bodyHook := none }

def c5St2 : AState := (defineClassA c5St1 c5Sub).2

def c5KSub : AClass :=
  { modName := "m", clsName := "Sub", ancs := [1], dict := [],
    initSub := none, oldInitSub := none, reg := none, flagged := false }

/-- C5 counterexample: `get_final_methods(Sub)` does not exclude names
finalised only on ancestors and is not empty for a type with no directly
finalised member.  `Sub` introduces no final member and owns no registry,
yet the query returns `Base`'s finalised `foo`, because `hasattr`/`getattr`
find the registry by inherited lookup. -/
theorem C5_counterexample :
    (defineClassA c5St1 c5Sub).1 = .ok 2 ∧
    c5Sub.decls = [] ∧
    (∃ k, getC c5St2 2 = some k ∧ k.reg = none) ∧
    getFinalMethodsA c5St2 2 = [some (.fnV 1)] ∧
    getFinalMethodsA c5St2 2 ≠ [] :=
  ⟨by decide, rfl, ⟨c5KSub, by decide, rfl⟩, by decide, by decide⟩

/-- C5 amended: `get_final_methods(T)` resolves the registry attribute by
inherited lookup.  It returns `getattr(T, name)` for every name in the first
registry found on `T`'s lookup chain — which, registries being shared in
place along a hierarchy, contains the names finalised by ancestors as well —
and returns the empty tuple exactly when no class on the chain carries a
registry. -/
theorem C5_returns_chain_registry (s : AState) (c : Nat) :
    (findRegA s (chainA s c) = none → getFinalMethodsA s c = []) ∧
    (∀ rid, findRegA s (chainA s c) = some rid →
      getFinalMethodsA s c = (regNames s rid).map (classGetattrA s c)) ∧
    (∀ rid m, findRegA s (chainA s c) = some rid → m ∈ regNames s rid →
      classGetattrA s c m ∈ getFinalMethodsA s c) := by
  refine ⟨?_, ?_, ?_⟩
  · intro h
    unfold getFinalMethodsA
    rw [h]
  · intro rid h
    unfold getFinalMethodsA
    rw [h]
  · intro rid m h hm
    unfold getFinalMethodsA
    rw [h]
    exact List.mem_map_of_mem _ hm

/-- Witness for the amended C5 on the counterexample state: the registry
visible from `Sub` is `Base`'s, and the query returns its members. -/
theorem C5_witness :
    findRegA c5St2 (chainA c5St2 2) = some 1 ∧
    getFinalMethodsA c5St2 2 = (regNames c5St2 1).map (classGetattrA c5St2 2) :=
  ⟨by decide, (C5_returns_chain_registry c5St2 2).2.1 1 (by decide)⟩

/-- A-side core of C2: in the package implementation, a subtype whose parent
chain shows a registry containing the name `m`, and which itself declares a
member named `m` (of any shape, `@final` or not), fails with an override
violation — unconditionally, since the hook's check is pure name
membership. -/
theorem overrideBlockedA (s : AState) (d : ClassDef) (p rid : Nat) (m : String)
    (hp : d.parent = some p)
    (hanc : ∀ a ∈ chainA s p, (getC s a).isSome = true)
    (hreg : findRegA s (chainA s p) = some rid)
    (hrid : (kget s.regs rid).isSome = true)
    (hm : m ∈ regNames s rid)
    (hdecl : (kget (buildNs d.decls) m).isSome = true)
    (hhook : findHookA s (chainA s p) = .forbidOverride) :
    ∃ n c, (defineClassA s d).1 = .error (.cannotOverride n c) := by
  obtain ⟨kp, hkp⟩ := Option.isSome_iff_exists.mp (hanc p (List.mem_cons_self p _))
  have hpo : ¬ parentOkA s d.parent = false := by
    rw [hp]
    simp [parentOkA, hkp]
  have hne := chain_ne_fresh s (chainA s p) hanc
  have hAncsEq : ancsFor s d.parent = chainA s p := by
    rw [hp]
    unfold ancsFor chainA
    rfl
  have hno : freshIdA s ∉ ancsFor s d.parent := by
    rw [hAncsEq]
    intro hmem
    exact hne (freshIdA s) hmem rfl
  have hstable1 : ∀ a ∈ chainA s p, getC (bodyStateA s d) a = getC s a := by
    intro a ha
    show kget (s.classes ++ [(freshIdA s, mkCandidateA s d)]) a = kget s.classes a
    exact getC_append_other s (freshIdA s) _ a (hne a ha)
  have hfind1 : findRegA (bodyStateA s d) (ancsFor s d.parent) = some rid := by
    rw [hAncsEq, findRegA_congr s (bodyStateA s d) (chainA s p) hstable1]
    exact hreg
  obtain ⟨k', h1, h2, h3, h4, h5, _⟩ := runSetNamesA_regFound (freshIdA s) rid
    (origVofA d) (ancsFor s d.parent) (buildNs d.decls) (bodyStateA s d)
    (mkCandidateA s d) (bodyStateA_cand s d) rfl rfl hno hfind1 hrid
  obtain ⟨k2, hk2, _, hc2, _, _, hdict⟩ := afterSetNamesA_cand s d
  have hkk : k' = k2 := by
    have h1' : getC (afterSetNamesA s d) (freshIdA s) = some k' := h1
    exact Option.some.inj (h1'.symm.trans hk2)
  have hstable2 : ∀ a ∈ chainA s p, getC (afterSetNamesA s d) a = getC s a := by
    intro a ha
    unfold afterSetNamesA
    rw [runSetNamesA_classes_other _ _ _ _ a (hne a ha)]
    exact hstable1 a ha
  have hp2 : getC (afterSetNamesA s d) p = some kp := by
    rw [hstable2 p (List.mem_cons_self p _)]
    exact hkp
  have hch2 : chainA (afterSetNamesA s d) p = chainA s p := by
    unfold chainA
    rw [hp2, hkp]
  have hhook2 : findHookA (afterSetNamesA s d) (chainA (afterSetNamesA s d) p)
      = .forbidOverride := by
    rw [hch2, findHookA_congr s (afterSetNamesA s d) (chainA s p) hstable2]
    exact hhook
  have hbchc : chainA (afterSetNamesA s d) (freshIdA s)
      = freshIdA s :: ancsFor s d.parent := by
    unfold chainA
    have h1' : getC (afterSetNamesA s d) (freshIdA s) = some k' := h1
    rw [h1']
    simp [h3]
  have hstable3 : ∀ a ∈ ancsFor s d.parent,
      getC (afterSetNamesA s d) a = getC (bodyStateA s d) a := by
    intro a ha
    unfold afterSetNamesA
    exact runSetNamesA_classes_other _ _ _ _ a (fun he => hno (he ▸ ha))
  have hfindc : findRegA (afterSetNamesA s d) (chainA (afterSetNamesA s d) (freshIdA s))
      = some rid := by
    rw [hbchc]
    unfold findRegA
    have h1' : getC (afterSetNamesA s d) (freshIdA s) = some k' := h1
    rw [h1']
    rw [findRegA_congr (bodyStateA s d) (afterSetNamesA s d) (ancsFor s d.parent) hstable3]
    simp [h2, hfind1]
  have hmem2 : m ∈ regNames (afterSetNamesA s d) rid := h5 m hm
  have hvars : hasOwn (afterSetNamesA s d) (freshIdA s) m = true := by
    obtain ⟨w, hw⟩ := Option.isSome_iff_exists.mp hdecl
    unfold hasOwn dictOf
    rw [hk2]
    exact hdict m w hw
  obtain ⟨n, hviol, _⟩ := firstViolationA_some (afterSetNamesA s d) (freshIdA s)
    (regNames (afterSetNamesA s d) rid) m hmem2 hvars
  have hres : hookResA s d
      = .error (.cannotOverride n (clsNameOf (afterSetNamesA s d) (freshIdA s))) := by
    have hstep : hookResA s d = runHookA ((afterSetNamesA s d).classes.length + 1)
        (afterSetNamesA s d)
        (findHookA (afterSetNamesA s d) (chainA (afterSetNamesA s d) p)) (freshIdA s) := by
      unfold hookResA
      rw [hp]
    rw [hstep, hhook2, runHookA_override_succ, hfindc]
    dsimp only
    rw [hviol]
  refine ⟨n, clsNameOf (afterSetNamesA s d) (freshIdA s), ?_⟩
  unfold defineClassA
  rw [if_neg hpo, hres]

end Pkg

namespace Src

/-! ## Lemmas about the refactored model -/

theorem findRegB_congr (s s' : BState) (L : List Nat)
    (h : ∀ a ∈ L, getB s' a = getB s a) : findRegB s' L = findRegB s L := by
  induction L with
  | nil => rfl
  | cons c t ih =>
    rw [findRegB, findRegB, h c (List.mem_cons_self c t),
      ih (fun a ha => h a (List.mem_cons_of_mem c ha))]

theorem findHookB_congr (s s' : BState) (L : List Nat)
    (h : ∀ a ∈ L, getB s' a = getB s a) : findHookB s' L = findHookB s L := by
  induction L with
  | nil => rfl
  | cons c t ih =>
    rw [findHookB, findHookB, h c (List.mem_cons_self c t),
      ih (fun a ha => h a (List.mem_cons_of_mem c ha))]

theorem patchB_classes_other (s : BState) (o : Nat) (x : Nat)
    (hx : x ≠ o) : getB (patchB s o) x = getB s x := by
  unfold patchB
  cases h : getB s o with
  | none => rfl
  | some k =>
    cases hf : findRegB s (bchain s o) with
    | none => simp [getB, kget_kset_other _ _ _ _ hx]
    | some rid => rfl

theorem setNameB_classes_other (s : BState) (o : Nat) (n : String) (v : Val) (x : Nat)
    (hx : x ≠ o) : getB (setNameB s o n v).2 x = getB s x := by
  unfold setNameB
  cases h : getB s o with
  | none => rfl
  | some k =>
    dsimp only
    cases hf : findRegB (patchB s o) (bchain (patchB s o) o) with
    | none => exact patchB_classes_other s o x hx
    | some rid =>
      dsimp only
      by_cases hin : (kget (bregPairs (patchB s o) rid) n).isSome = true
      · rw [if_pos hin]
        exact patchB_classes_other s o x hx
      · rw [if_neg hin]
        cases h2 : getB (patchB s o) o with
        | none => exact patchB_classes_other s o x hx
        | some k2 =>
          show kget (kset (patchB s o).classes o _) x = _
          rw [kget_kset_other _ _ _ _ hx]
          exact patchB_classes_other s o x hx

/-- Patching only rewrites the owner's registry reference and hook slot. -/
theorem patchB_owner_fields (s : BState) (o : Nat) (k : BClass)
    (hk : getB s o = some k) :
    ∃ k', getB (patchB s o) o = some k' ∧ k'.modName = k.modName ∧
      k'.clsName = k.clsName ∧ k'.ancs = k.ancs ∧ k'.dict = k.dict := by
  unfold patchB
  rw [hk]
  cases hf : findRegB s (bchain s o) with
  | some rid => exact ⟨k, hk, rfl, rfl, rfl, rfl⟩
  | none =>
    refine ⟨{ k with reg := some (freshNat s.regs), initSub := some (BHook.forbidOverride (findHookB s (bchain s o)) o) }, ?_, rfl, rfl, rfl, rfl⟩
    simp [getB, kget_kset_self]

/-- `__set_name__` preserves the owner's identity fields. -/
theorem setNameB_owner_fields (s : BState) (o : Nat) (n : String) (v : Val) (k : BClass)
    (hk : getB s o = some k) :
    ∃ k', getB (setNameB s o n v).2 o = some k' ∧ k'.modName = k.modName ∧
      k'.clsName = k.clsName ∧ k'.ancs = k.ancs := by
  obtain ⟨kp, hkp, h1, h2, h3, h4⟩ := patchB_owner_fields s o k hk
  unfold setNameB
  rw [hk]
  dsimp only
  cases hf : findRegB (patchB s o) (bchain (patchB s o) o) with
  | none => exact ⟨kp, hkp, h1, h2, h3⟩
  | some rid =>
    dsimp only
    by_cases hin : (kget (bregPairs (patchB s o) rid) n).isSome = true
    · rw [if_pos hin]
      exact ⟨kp, hkp, h1, h2, h3⟩
    · rw [if_neg hin]
      cases h2' : getB (patchB s o) o with
      | none => exact ⟨kp, hkp, h1, h2, h3⟩
      | some k2 =>
        have hkk : kp = k2 := Option.some.inj (hkp.symm.trans h2')
        refine ⟨{ k2 with dict := kset k2.dict n v }, ?_, ?_, ?_, ?_⟩
        · show kget (kset (patchB s o).classes o _) o = _
          exact kget_kset_self _ _ _
        · rw [← hkk]
          exact h1
        · rw [← hkk]
          exact h2
        · rw [← hkk]
          exact h3

/-- The only error `__set_name__` can raise is the override violation, and
it names the member and the owner (the class under definition). -/
theorem setNameB_err_shape (s : BState) (o : Nat) (n : String) (v : Val)
    (e : PyErr) (s' : BState) (k : BClass)
    (hk : getB s o = some k) (hrun : setNameB s o n v = (.error e, s')) :
    e = .cannotOverride n k.clsName := by
  unfold setNameB at hrun
  rw [hk] at hrun
  dsimp only at hrun
  cases hf : findRegB (patchB s o) (bchain (patchB s o) o) with
  | none =>
    rw [hf] at hrun
    exact absurd (congrArg Prod.fst hrun) (by simp)
  | some rid =>
    rw [hf] at hrun
    dsimp only at hrun
    by_cases hin : (kget (bregPairs (patchB s o) rid) n).isSome = true
    · rw [if_pos hin] at hrun
      exact (Except.error.inj (congrArg Prod.fst hrun)).symm
    · rw [if_neg hin] at hrun
      cases h2' : getB (patchB s o) o with
      | none =>
        rw [h2'] at hrun
        exact absurd (congrArg Prod.fst hrun) (by simp)
      | some k2 =>
        rw [h2'] at hrun
        exact absurd (congrArg Prod.fst hrun) (by simp)

/-- Any error escaping the `__set_name__` phase is an override violation
naming the class under definition. -/
theorem runSetNamesB_err_names_owner (o : Nat) (l : List (String × Val)) :
    ∀ (s s2 : BState) (e : PyErr) (k : BClass),
    runSetNamesB s o l = (.error e, s2) → getB s o = some k →
    ∃ n, e = .cannotOverride n k.clsName := by
  induction l with
  | nil =>
    intro s s2 e k hrun hk
    exact absurd (congrArg Prod.fst hrun) (by simp [runSetNamesB])
  | cons hd t ih =>
    intro s s2 e k hrun hk
    obtain ⟨n, w⟩ := hd
    cases w with
    | finalSlot sh =>
      have hrun' : (match setNameB s o n sh.toVal with
          | (.ok _, s') => runSetNamesB s' o t
          | (.error e', s') => (.error e', s')) = (.error e, s2) := hrun
      cases hsn : setNameB s o n sh.toVal with
      | mk r s' =>
        cases r with
        | ok u =>
          rw [hsn] at hrun'
          obtain ⟨k', hk', _, hc', _⟩ := setNameB_owner_fields s o n sh.toVal k hk
          rw [hsn] at hk'
          obtain ⟨n', hn'⟩ := ih s' s2 e k' hrun' hk'
          exact ⟨n', by rw [hn', hc']⟩
        | error e' =>
          rw [hsn] at hrun'
          have he2 : e' = e := Except.error.inj (congrArg Prod.fst hrun')
          exact ⟨n, by rw [← he2]; exact setNameB_err_shape s o n sh.toVal e' s' k hk hsn⟩
    | fnV f => exact ih s s2 e k hrun hk
    | accessorV f => exact ih s s2 e k hrun hk
    | staticV f => exact ih s s2 e k hrun hk
    | classV f => exact ih s s2 e k hrun hk
    | boundV f r => exact ih s s2 e k hrun hk

/-- Computation of `__set_name__` when a registry is already visible from
the owner's chain: no patching happens; the call either raises (name already
registered) or registers the name under the owner's qualified name and
stores the target back. -/
theorem setNameB_found (s : BState) (o rid : Nat) (n : String) (v : Val) (k : BClass)
    (L : List (String × String))
    (hk : getB s o = some k) (hfindc : findRegB s (bchain s o) = some rid)
    (hL : kget s.regs rid = some L) :
    setNameB s o n v =
      (if (kget L n).isSome = true then
        (Except.error (.cannotOverride n k.clsName), s)
       else
        (Except.ok (), { s with
          regs := kupd s.regs rid (fun l2 => l2 ++ [(n, qualOf k.modName k.clsName)]),
          classes := kset s.classes o { k with dict := kset k.dict n v } })) := by
  have hpatch : patchB s o = s := by
    unfold patchB
    rw [hk, hfindc]
  have hpairs : bregPairs s rid = L := by
    unfold bregPairs
    rw [hL]
    rfl
  unfold setNameB
  rw [hk]
  dsimp only
  rw [hpatch, hfindc]
  dsimp only
  rw [hpairs, hk]

/-- `__set_name__` on a root class (no ancestors) with no registry yet: the
owner is patched with a fresh registry, the name is registered under the
owner's qualified name, and the target is stored back. -/
theorem setNameB_fresh_root (s : BState) (o : Nat) (n : String) (v : Val) (k : BClass)
    (hk : getB s o = some k) (hreg : k.reg = none) (hancs : k.ancs = []) :
    ∃ s', setNameB s o n v = (.ok (), s') ∧
      (∃ k', getB s' o = some k' ∧ k'.reg = some (freshNat s.regs) ∧
        kget k'.dict n = some v ∧ k'.modName = k.modName ∧ k'.clsName = k.clsName ∧
        k'.ancs = [] ∧
        k'.initSub = some (BHook.forbidOverride (findHookB s (bchain s o)) o)) ∧
      kget s'.regs (freshNat s.regs) = some [(n, qualOf k.modName k.clsName)] := by
  have hbch : bchain s o = [o] := by
    unfold bchain
    rw [hk]
    simp [hancs]
  have hfind0 : findRegB s (bchain s o) = none := by
    rw [hbch]
    unfold findRegB
    rw [hk]
    simp [hreg]
    rfl
  have hpatch : patchB s o = { s with regs := s.regs ++ [(freshNat s.regs, [])], classes := kset s.classes o { k with reg := some (freshNat s.regs), initSub := some (BHook.forbidOverride (findHookB s (bchain s o)) o) } } := by
    unfold patchB
    rw [hk, hfind0]
  have hgot : getB (patchB s o) o = some { k with reg := some (freshNat s.regs), initSub := some (BHook.forbidOverride (findHookB s (bchain s o)) o) } := by
    rw [hpatch]
    simp [getB, kget_kset_self]
  have hbchp : bchain (patchB s o) o = [o] := by
    unfold bchain
    rw [hgot]
    simp [hancs]
  have hfindp : findRegB (patchB s o) (bchain (patchB s o) o) = some (freshNat s.regs) := by
    rw [hbchp]
    unfold findRegB
    rw [hgot]
    rfl
  have hregsp : kget (patchB s o).regs (freshNat s.regs) = some [] := by
    rw [hpatch]
    exact Pkg.kget_append_self _ _ _ (kget_fresh s.regs)
  have hpairsp : bregPairs (patchB s o) (freshNat s.regs) = [] := by
    unfold bregPairs
    rw [hregsp]
    rfl
  refine ⟨{ classes := kset (patchB s o).classes o { k with dict := kset k.dict n v, initSub := some (BHook.forbidOverride (findHookB s (bchain s o)) o), reg := some (freshNat s.regs) }, regs := kupd (patchB s o).regs (freshNat s.regs) (fun l2 => l2 ++ [(n, qualOf k.modName k.clsName)]) }, ?_, ?_, ?_⟩
  · unfold setNameB
    rw [hk]
    dsimp only
    rw [hfindp]
    dsimp only
    rw [hpairsp]
    rw [if_neg (by simp : ¬ (kget ([] : List (String × String)) n).isSome = true)]
    rw [hgot]
  · refine ⟨{ k with dict := kset k.dict n v, initSub := some (BHook.forbidOverride (findHookB s (bchain s o)) o), reg := some (freshNat s.regs) }, ?_, rfl, kget_kset_self _ _ _, rfl, rfl, hancs, rfl⟩
    show kget (kset (patchB s o).classes o _) o = _
    exact kget_kset_self _ _ _
  · show kget (kupd (patchB s o).regs (freshNat s.regs) _) (freshNat s.regs) = _
    rw [kget_kupd_self, hregsp]
    rfl

/-- A successful `__set_name__` phase over a class whose chain already shows
a registry: the owner keeps `reg = None`, its identity fields survive, its
dict keys only grow, other class records are untouched, previously
registered pairs survive (names are only appended), and the same registry
stays visible. -/
theorem runSetNamesB_ok_found (o rid : Nat) (ancs0 : List Nat)
    (l : List (String × Val)) :
    ∀ (s s2 : BState) (u : Unit) (k : BClass),
    runSetNamesB s o l = (.ok u, s2) →
    getB s o = some k → k.reg = none → k.ancs = ancs0 → o ∉ ancs0 →
    findRegB s ancs0 = some rid → (kget s.regs rid).isSome = true →
    ∃ k', getB s2 o = some k' ∧ k'.reg = none ∧ k'.ancs = ancs0 ∧
      k'.modName = k.modName ∧ k'.clsName = k.clsName ∧
      (∀ a, a ≠ o → getB s2 a = getB s a) ∧
      (∀ pr, pr ∈ bregPairs s rid → pr ∈ bregPairs s2 rid) ∧
      (∀ x w, kget k.dict x = some w → (kget k'.dict x).isSome = true) ∧
      findRegB s2 ancs0 = some rid ∧ (kget s2.regs rid).isSome = true := by
  induction l with
  | nil =>
    intro s s2 u k hrun hk hreg hancs hno hfind hsome
    have hs : s = s2 := congrArg Prod.snd hrun
    subst hs
    exact ⟨k, hk, hreg, hancs, rfl, rfl, fun a ha => rfl, fun pr hpr => hpr,
      fun x w hw => by simp [hw], hfind, hsome⟩
  | cons hd t ih =>
    intro s s2 u k hrun hk hreg hancs hno hfind hsome
    obtain ⟨n, w⟩ := hd
    cases w with
    | finalSlot sh =>
      obtain ⟨L, hL⟩ := Option.isSome_iff_exists.mp hsome
      have hbch : bchain s o = o :: k.ancs := by
        unfold bchain
        rw [hk]
        rfl
      have hfindc0 : findRegB s (bchain s o) = some rid := by
        rw [hbch]
        unfold findRegB
        rw [hk]
        simp [hreg, hancs ▸ hfind]
      have hstep := setNameB_found s o rid n sh.toVal k L hk hfindc0 hL
      have hrun' : (match setNameB s o n sh.toVal with
          | (.ok _, s') => runSetNamesB s' o t
          | (.error e', s') => (.error e', s')) = (.ok u, s2) := hrun
      by_cases hin : (kget L n).isSome = true
      · rw [hstep, if_pos hin] at hrun'
        exact absurd (congrArg Prod.fst hrun') (by simp)
      · rw [hstep, if_neg hin] at hrun'
        -- the post-step state
        have hk1 : getB ({ s with
            regs := kupd s.regs rid (fun l2 => l2 ++ [(n, qualOf k.modName k.clsName)]),
            classes := kset s.classes o { k with dict := kset k.dict n sh.toVal } } : BState) o
            = some { k with dict := kset k.dict n sh.toVal } := by
          simp [getB, kget_kset_self]
        have hother1 : ∀ a, a ≠ o → getB ({ s with
            regs := kupd s.regs rid (fun l2 => l2 ++ [(n, qualOf k.modName k.clsName)]),
            classes := kset s.classes o { k with dict := kset k.dict n sh.toVal } } : BState) a
            = getB s a := by
          intro a ha
          simp [getB, kget_kset_other _ _ _ _ ha]
        have hfind1 : findRegB ({ s with
            regs := kupd s.regs rid (fun l2 => l2 ++ [(n, qualOf k.modName k.clsName)]),
            classes := kset s.classes o { k with dict := kset k.dict n sh.toVal } } : BState) ancs0
            = some rid := by
          rw [findRegB_congr s _ ancs0 (fun a ha => hother1 a (fun he => hno (he ▸ ha)))]
          exact hfind
        have hregs1 : kget ({ s with
            regs := kupd s.regs rid (fun l2 => l2 ++ [(n, qualOf k.modName k.clsName)]),
            classes := kset s.classes o { k with dict := kset k.dict n sh.toVal } } : BState).regs rid
            = some (L ++ [(n, qualOf k.modName k.clsName)]) := by
          show kget (kupd s.regs rid _) rid = _
          rw [kget_kupd_self, hL]
          rfl
        obtain ⟨k', h1, h2, h3, h4, h5, h6, h7, h8, h9, h10⟩ := ih _ s2 u
          { k with dict := kset k.dict n sh.toVal } hrun' hk1 hreg hancs hno hfind1
          (by rw [hregs1]; rfl)
        refine ⟨k', h1, h2, h3, h4, h5, ?_, ?_, ?_, h9, h10⟩
        · intro a ha
          rw [h6 a ha, hother1 a ha]
        · intro pr hpr
          refine h7 pr ?_
          unfold bregPairs
          rw [hregs1]
          unfold bregPairs at hpr
          rw [hL] at hpr
          exact List.mem_append_left _ hpr
        · intro x w hw
          by_cases hxn : x = n
          · subst hxn
            exact h8 x sh.toVal (kget_kset_self _ _ _)
          · exact h8 x w (by rw [kget_kset_other _ _ _ _ hxn]; exact hw)
    | fnV f => exact ih s s2 u k hrun hk hreg hancs hno hfind hsome
    | accessorV f => exact ih s s2 u k hrun hk hreg hancs hno hfind hsome
    | staticV f => exact ih s s2 u k hrun hk hreg hancs hno hfind hsome
    | classV f => exact ih s s2 u k hrun hk hreg hancs hno hfind hsome
    | boundV f r => exact ih s s2 u k hrun hk hreg hancs hno hfind hsome

/-- If the registry holds a pair whose name the class declares itself and
whose finalising qualified name differs from the class's own, the check loop
reports some violation. -/
theorem firstViolB_some (s : BState) (c : Nat) (q : String)
    (L : List (String × String)) (m mq : String)
    (hm : (m, mq) ∈ L) (hv : bhasOwn s c m = true) (hq : mq ≠ q) :
    ∃ n, firstViolB s c q L = some n := by
  induction L with
  | nil => cases hm
  | cons hd t ih =>
    obtain ⟨a, aq⟩ := hd
    by_cases hcond : bhasOwn s c a = true ∧ aq ≠ q
    · exact ⟨a, by simp [firstViolB, hcond]⟩
    · rcases List.mem_cons.mp hm with he | ht
      · rw [Prod.mk.injEq] at he
        obtain ⟨h1, h2⟩ := he
        subst h1
        subst h2
        exact absurd ⟨hv, hq⟩ hcond
      · obtain ⟨n, hn⟩ := ih ht
        refine ⟨n, ?_⟩
        unfold firstViolB
        rw [if_neg hcond]
        exact hn

theorem runHookB_override (s : BState) (old : BHook) (bnd c : Nat) :
    runHookB s (.forbidOverride old bnd) c =
      (match firstViolB s c (bQualOf s c)
          (match findRegB s (bchain s c) with
            | some rid => bregPairs s rid
            | none => []) with
        | some n => (Except.error (.cannotOverride n (bNameOf s c)), [])
        | none => runHookB s old bnd) := rfl

/-- Pre-existing class records survive the allocation of the candidate. -/
theorem bodyStateB_other (s : BState) (d : ClassDef) (x : Nat) (k : BClass)
    (hx : getB s x = some k) : getB (bodyStateB s d) x = some k := by
  show kget (s.classes ++ [(freshIdB s, mkCandidateB s d)]) x = some k
  rw [kget_append]
  have hx' : kget s.classes x = some k := hx
  rw [hx']

theorem bodyStateB_cand (s : BState) (d : ClassDef) :
    getB (bodyStateB s d) (freshIdB s) = some (mkCandidateB s d) := by
  show kget (s.classes ++ [(freshIdB s, mkCandidateB s d)]) (freshIdB s) = _
  exact Pkg.kget_append_self _ _ _ (kget_fresh s.classes)

/-- B-side core of C2 (amended): in the refactored module, a subtype whose
parent chain shows a registry holding `m` finalised under qualified name
`q`, that itself declares a member named `m`, fails with an override
violation — provided `q` differs from the subtype's own qualified name (the
same-type exemption compares qualified names). -/
theorem overrideBlockedB (s : BState) (d : ClassDef) (p rid : Nat) (m q : String)
    (oh : BHook) (ob : Nat)
    (hp : d.parent = some p)
    (hanc : ∀ a ∈ bchain s p, (getB s a).isSome = true)
    (hreg : findRegB s (bchain s p) = some rid)
    (hrid : (kget s.regs rid).isSome = true)
    (hm : kget (bregPairs s rid) m = some q)
    (hq : q ≠ qualOf d.modName d.clsName)
    (hdecl : (kget (buildNs d.decls) m).isSome = true)
    (hhook : findHookB s (bchain s p) = .forbidOverride oh ob) :
    ∃ n, (defineClassB s d).1 = .error (.cannotOverride n d.clsName) := by
  have hpex : (getB s p).isSome = true := hanc p (List.mem_cons_self p _)
  obtain ⟨kp, hkp⟩ := Option.isSome_iff_exists.mp hpex
  have hpo : ¬ parentOkB s d.parent = false := by
    rw [hp]
    simp [parentOkB, hkp]
  have hne : ∀ a ∈ bchain s p, a ≠ freshIdB s := by
    intro a ha
    obtain ⟨ka, hka⟩ := Option.isSome_iff_exists.mp (hanc a ha)
    exact kget_ne_fresh s.classes a ka hka
  have hAncsEq : ancsForB s d.parent = bchain s p := by
    rw [hp]
    unfold ancsForB bchain
    rfl
  have hno : freshIdB s ∉ ancsForB s d.parent := by
    rw [hAncsEq]
    intro hmem
    exact hne (freshIdB s) hmem rfl
  have hstable1 : ∀ a ∈ bchain s p, getB (bodyStateB s d) a = getB s a := by
    intro a ha
    show kget (s.classes ++ [(freshIdB s, mkCandidateB s d)]) a = kget s.classes a
    exact kget_append_one_other s.classes (freshIdB s) _ a (hne a ha)
  have hcand : getB (bodyStateB s d) (freshIdB s) = some (mkCandidateB s d) :=
    bodyStateB_cand s d
  have hfind1 : findRegB (bodyStateB s d) (ancsForB s d.parent) = some rid := by
    rw [hAncsEq, findRegB_congr s (bodyStateB s d) (bchain s p) hstable1]
    exact hreg
  have hsome1 : (kget (bodyStateB s d).regs rid).isSome = true := hrid
  cases hsn : setNamesResB s d with
  | mk r s2 =>
    cases r with
    | error e =>
      obtain ⟨n, hnn⟩ := runSetNamesB_err_names_owner (freshIdB s) (buildNs d.decls)
        (bodyStateB s d) s2 e (mkCandidateB s d) hsn hcand
      refine ⟨n, ?_⟩
      have hdef : (defineClassB s d).1 = .error e := by
        unfold defineClassB
        rw [if_neg hpo, hsn]
      rw [hdef, hnn]
      rfl
    | ok u =>
      obtain ⟨k', h1, h2, h3, h4, h5, h6, h7, h8, h9, h10⟩ :=
        runSetNamesB_ok_found (freshIdB s) rid (ancsForB s d.parent) (buildNs d.decls)
          (bodyStateB s d) s2 u (mkCandidateB s d) hsn hcand rfl rfl hno hfind1 hsome1
      have hstable2 : ∀ a ∈ bchain s p, getB s2 a = getB s a := by
        intro a ha
        rw [h6 a (hne a ha), hstable1 a ha]
      have hp2 : getB s2 p = some kp := by
        rw [hstable2 p (List.mem_cons_self p _)]
        exact hkp
      have hbch2 : bchain s2 p = bchain s p := by
        unfold bchain
        rw [hp2, hkp]
      have hhook2 : findHookB s2 (bchain s2 p) = .forbidOverride oh ob := by
        rw [hbch2, findHookB_congr s s2 (bchain s p) hstable2]
        exact hhook
      have hbchc : bchain s2 (freshIdB s) = freshIdB s :: ancsForB s d.parent := by
        unfold bchain
        rw [h1]
        simp [h3]
      have hfindc : findRegB s2 (bchain s2 (freshIdB s)) = some rid := by
        rw [hbchc]
        unfold findRegB
        rw [h1]
        simp [h2, h9]
      have hpair : (m, q) ∈ bregPairs s2 rid := h7 (m, q) (Pkg.kget_mem _ _ _ hm)
      have hvars : bhasOwn s2 (freshIdB s) m = true := by
        obtain ⟨w, hw⟩ := Option.isSome_iff_exists.mp hdecl
        unfold bhasOwn bdictOf
        rw [h1]
        exact h8 m w hw
      have hqual : bQualOf s2 (freshIdB s) = qualOf d.modName d.clsName := by
        unfold bQualOf
        rw [h1]
        dsimp only
        rw [h4, h5]
        rfl
      obtain ⟨n, hviol⟩ := firstViolB_some s2 (freshIdB s) (bQualOf s2 (freshIdB s))
        (bregPairs s2 rid) m q hpair hvars (by rw [hqual]; exact hq)
      have hrh : runHookB s2 (findHookB s2 (bchain s2 p)) (freshIdB s)
          = (.error (.cannotOverride n (bNameOf s2 (freshIdB s))), []) := by
        rw [hhook2, runHookB_override, hfindc]
        dsimp only
        rw [hviol]
      have hdef : (defineClassB s d).1
          = .error (.cannotOverride n (bNameOf s2 (freshIdB s))) := by
        unfold defineClassB
        rw [if_neg hpo, hsn]
        dsimp only
        rw [hp]
        dsimp only
        rw [hrh]
      have hbn : bNameOf s2 (freshIdB s) = d.clsName := by
        unfold bNameOf
        rw [h1]
        show k'.clsName = d.clsName
        rw [h5]
        rfl
      exact ⟨n, by rw [hdef, hbn]⟩

/-- A class body that declares the same `@final` name twice (the accessor
get/set pairing pattern): the namespace holds a single entry for the name —
the later declaration overwrote the earlier — so only one `__set_name__`
runs and the definition succeeds, binding the name to the last declared
target and registering it once under the class's own qualified name. -/
theorem dupFinalSameBody (s : BState) (mod cls n : String) (sh1 sh2 : Shape) :
    (defineClassB s ⟨mod, cls, none, [⟨n, sh1, true⟩, ⟨n, sh2, true⟩], none⟩).1
      = .ok (freshIdB s) ∧
    ∃ k', getB (defineClassB s ⟨mod, cls, none, [⟨n, sh1, true⟩, ⟨n, sh2, true⟩], none⟩).2.1
        (freshIdB s) = some k' ∧
      k'.reg = some (freshNat s.regs) ∧
      kget k'.dict n = some sh2.toVal ∧
      kget (defineClassB s ⟨mod, cls, none, [⟨n, sh1, true⟩, ⟨n, sh2, true⟩], none⟩).2.1.regs
        (freshNat s.regs) = some [(n, qualOf mod cls)] := by
  have hns : buildNs ([⟨n, sh1, true⟩, ⟨n, sh2, true⟩] : List Decl)
      = [(n, Val.finalSlot sh2)] := by
    simp [buildNs, declVal, kset]
  obtain ⟨s', hstep, ⟨k', hk', hreg', hdict', hmod', hcls', hancs', hinit'⟩, hregs'⟩ :=
    setNameB_fresh_root (bodyStateB s ⟨mod, cls, none, [⟨n, sh1, true⟩, ⟨n, sh2, true⟩], none⟩)
      (freshIdB s) n sh2.toVal
      (mkCandidateB s ⟨mod, cls, none, [⟨n, sh1, true⟩, ⟨n, sh2, true⟩], none⟩)
      (bodyStateB_cand s _) rfl rfl
  have hres : setNamesResB s ⟨mod, cls, none, [⟨n, sh1, true⟩, ⟨n, sh2, true⟩], none⟩
      = (.ok (), s') := by
    show runSetNamesB (bodyStateB s _) (freshIdB s)
      (buildNs ([⟨n, sh1, true⟩, ⟨n, sh2, true⟩] : List Decl)) = _
    rw [hns]
    show (match setNameB (bodyStateB s ⟨mod, cls, none, [⟨n, sh1, true⟩, ⟨n, sh2, true⟩], none⟩)
        (freshIdB s) n sh2.toVal with
      | (.ok _, s3) => runSetNamesB s3 (freshIdB s) []
      | (.error e, s3) => (.error e, s3)) = _
    rw [hstep]
    rfl
  have hpo : ¬ parentOkB s (⟨mod, cls, none, [⟨n, sh1, true⟩, ⟨n, sh2, true⟩], none⟩ : ClassDef).parent = false := by
    simp [parentOkB]
  have hdef : defineClassB s ⟨mod, cls, none, [⟨n, sh1, true⟩, ⟨n, sh2, true⟩], none⟩
      = (.ok (freshIdB s), s', []) := by
    unfold defineClassB
    rw [if_neg hpo, hres]
  rw [hdef]
  exact ⟨rfl, k', hk', hreg', hdict', hregs'⟩

/-- Re-invoking `__set_name__` for a name that is already registered raises
the override violation, whatever declaring type is recorded — the marking is
not idempotent. -/
theorem remarkRaises (s : BState) (o rid : Nat) (n q : String) (v : Val)
    (k : BClass) (L : List (String × String))
    (hk : getB s o = some k)
    (hfind : findRegB s (bchain s o) = some rid)
    (hL : kget s.regs rid = some L)
    (hn : kget L n = some q) :
    setNameB s o n v = (.error (.cannotOverride n k.clsName), s) := by
  rw [setNameB_found s o rid n v k L hk hfind hL,
    if_pos (by simp [hn] : (kget L n).isSome = true)]

theorem firstViolB_none_of_no_own (s : BState) (c : Nat) (q : String)
    (h : ∀ n, bhasOwn s c n = false) :
    ∀ L, firstViolB s c q L = none := by
  intro L
  induction L with
  | nil => rfl
  | cons hd t ih =>
    obtain ⟨a, aq⟩ := hd
    unfold firstViolB
    rw [if_neg (by simp [h a])]
    exact ih

/-- The unrelated hook's verdict depends only on the record of the class it
inspects. -/
theorem evalUHookB_congr (s s' : BState) (u : UHook) (c : Nat)
    (h : getB s' c = getB s c) : evalUHookB s' u c = evalUHookB s u c := by
  cases u with
  | alwaysRaise m => rfl
  | requireOwnMember a =>
    unfold evalUHookB bhasOwn bdictOf
    rw [h]

/-- A subtype with an empty body under a patched ancestor: this mechanism's
checks pass, and the whole class statement reduces to the delegation — the
closure invokes the captured bound hook on the class it was bound to. -/
theorem delegationSetup (s : BState) (d : ClassDef) (p rid : Nat) (old : BHook)
    (bnd : Nat)
    (hp : d.parent = some p) (hdecls : d.decls = [])
    (hanc : ∀ a ∈ bchain s p, (getB s a).isSome = true)
    (hreg : findRegB s (bchain s p) = some rid)
    (hhook : findHookB s (bchain s p) = .forbidOverride old bnd) :
    defineClassB s d = (match runHookB (bodyStateB s d) old bnd with
      | (.ok _, tr) => (.ok (freshIdB s), bodyStateB s d, tr)
      | (.error e, tr) => (.error e, { bodyStateB s d with
          classes := kdel (bodyStateB s d).classes (freshIdB s) }, tr)) := by
  obtain ⟨kp, hkp⟩ := Option.isSome_iff_exists.mp (hanc p (List.mem_cons_self p _))
  have hpo : ¬ parentOkB s d.parent = false := by
    rw [hp]
    simp [parentOkB, hkp]
  have hne : ∀ a ∈ bchain s p, a ≠ freshIdB s := by
    intro a ha
    obtain ⟨ka, hka⟩ := Option.isSome_iff_exists.mp (hanc a ha)
    exact kget_ne_fresh s.classes a ka hka
  have hns : buildNs d.decls = [] := by
    rw [hdecls]
    rfl
  have hsetres : setNamesResB s d = (.ok (), bodyStateB s d) := by
    show runSetNamesB (bodyStateB s d) (freshIdB s) (buildNs d.decls) = _
    rw [hns]
    rfl
  have hstable1 : ∀ a ∈ bchain s p, getB (bodyStateB s d) a = getB s a := by
    intro a ha
    show kget (s.classes ++ [(freshIdB s, mkCandidateB s d)]) a = kget s.classes a
    exact kget_append_one_other s.classes (freshIdB s) _ a (hne a ha)
  have hcand : getB (bodyStateB s d) (freshIdB s) = some (mkCandidateB s d) :=
    bodyStateB_cand s d
  have hp2 : getB (bodyStateB s d) p = some kp := by
    rw [hstable1 p (List.mem_cons_self p _)]
    exact hkp
  have hbch2 : bchain (bodyStateB s d) p = bchain s p := by
    unfold bchain
    rw [hp2, hkp]
  have hhook2 : findHookB (bodyStateB s d) (bchain (bodyStateB s d) p)
      = .forbidOverride old bnd := by
    rw [hbch2, findHookB_congr s (bodyStateB s d) (bchain s p) hstable1]
    exact hhook
  have hAncsEq : ancsForB s d.parent = bchain s p := by
    rw [hp]
    unfold ancsForB bchain
    rfl
  have hbchc : bchain (bodyStateB s d) (freshIdB s)
      = freshIdB s :: ancsForB s d.parent := by
    unfold bchain
    rw [hcand]
    rfl
  have hfindc : findRegB (bodyStateB s d) (bchain (bodyStateB s d) (freshIdB s))
      = some rid := by
    rw [hbchc]
    unfold findRegB
    rw [hcand]
    show (match (mkCandidateB s d).reg with
      | some r => some r
      | none => findRegB (bodyStateB s d) (ancsForB s d.parent)) = some rid
    show findRegB (bodyStateB s d) (ancsForB s d.parent) = some rid
    rw [hAncsEq, findRegB_congr s (bodyStateB s d) (bchain s p) hstable1]
    exact hreg
  have hnoown : ∀ n, bhasOwn (bodyStateB s d) (freshIdB s) n = false := by
    intro n
    unfold bhasOwn bdictOf
    rw [hcand]
    show (kget (buildNs d.decls) n).isSome = false
    rw [hns]
    rfl
  have hviol : firstViolB (bodyStateB s d) (freshIdB s)
      (bQualOf (bodyStateB s d) (freshIdB s))
      (bregPairs (bodyStateB s d) rid) = none :=
    firstViolB_none_of_no_own (bodyStateB s d) (freshIdB s) _ hnoown _
  have hrunhook : runHookB (bodyStateB s d)
      (findHookB (bodyStateB s d) (bchain (bodyStateB s d) p)) (freshIdB s)
      = runHookB (bodyStateB s d) old bnd := by
    rw [hhook2, runHookB_override, hfindc]
    dsimp only
    rw [hviol]
  unfold defineClassB
  rw [if_neg hpo, hsetres]
  dsimp only
  rw [hp]
  dsimp only
  rw [hrunhook]

end Src

/-! ## Claim C2 -/

/-- The counterexample hierarchy for C2: `Base` in module `m` finalises
`edit`; then a second class also named `Base` in module `m` subclasses it
and redeclares `edit` as a plain method. -/
def c2Base : ClassDef :=
  { modName := "m", clsName := "Base", parent := none,
    decls := [⟨"edit", .plainFn 1, true⟩], bodyHook := none }

def c2StB : Src.BState := (Src.defineClassB Src.initB c2Base).2.1

def c2Shadow : ClassDef :=
  { modName := "m", clsName := "Base", parent := some 1,
    decls := [⟨"edit", .plainFn 2, false⟩], bodyHook := none }

/-- C2 counterexample: in the refactored module the override check compares
the finalising type's *qualified name* with the new class's, so a descendant
defined with the same module and class name as the finaliser redeclares the
final member `edit` without any violation: the class statement succeeds. -/
theorem C2_counterexample :
    kget (Src.bregPairs c2StB 1) "edit" = some "m.Base" ∧
    Src.findRegB c2StB (Src.bchain c2StB 1) = some 1 ∧
    c2Shadow.parent = some 1 ∧
    (kget (buildNs c2Shadow.decls) "edit").isSome = true ∧
    (Src.defineClassB c2StB c2Shadow).1 = .ok 2 :=
  ⟨by decide, by decide, rfl, by decide, by decide⟩

/-- C2 (amended): a descendant (direct or transitive — the hypotheses place
the registry anywhere up the parent chain) that declares a member named `m`
already registered as final fails with the override violation, regardless of
the member's shape or decoration.  In the package implementation this holds
unconditionally; in the refactored module it holds provided the descendant's
qualified name differs from the registered finaliser's, the qualified-name
comparison exempting a same-named descendant. -/
theorem C2_override_of_final_member_blocked :
    (∀ (s : Pkg.AState) (d : ClassDef) (p rid : Nat) (m : String),
      d.parent = some p →
      (∀ a ∈ Pkg.chainA s p, (Pkg.getC s a).isSome = true) →
      Pkg.findRegA s (Pkg.chainA s p) = some rid →
      (kget s.regs rid).isSome = true →
      m ∈ Pkg.regNames s rid →
      (kget (buildNs d.decls) m).isSome = true →
      Pkg.findHookA s (Pkg.chainA s p) = .forbidOverride →
      ∃ n c, (Pkg.defineClassA s d).1 = .error (.cannotOverride n c)) ∧
    (∀ (s : Src.BState) (d : ClassDef) (p rid : Nat) (m q : String)
      (oh : Src.BHook) (ob : Nat),
      d.parent = some p →
      (∀ a ∈ Src.bchain s p, (Src.getB s a).isSome = true) →
      Src.findRegB s (Src.bchain s p) = some rid →
      (kget s.regs rid).isSome = true →
      kget (Src.bregPairs s rid) m = some q →
      q ≠ qualOf d.modName d.clsName →
      (kget (buildNs d.decls) m).isSome = true →
      Src.findHookB s (Src.bchain s p) = .forbidOverride oh ob →
      ∃ n c, (Src.defineClassB s d).1 = .error (.cannotOverride n c)) :=
  ⟨fun s d p rid m h1 h2 h3 h4 h5 h6 h7 =>
     Pkg.overrideBlockedA s d p rid m h1 h2 h3 h4 h5 h6 h7,
   fun s d p rid m q oh ob h1 h2 h3 h4 h5 h6 h7 h8 =>
     (Src.overrideBlockedB s d p rid m q oh ob h1 h2 h3 h4 h5 h6 h7 h8).elim
       (fun n hn => ⟨n, d.clsName, hn⟩)⟩

/-- The C2 witness hierarchy on the package side: `Base` finalises `edit`;
`Leaf(Base)` redeclares it. -/
def c2StA : Pkg.AState := (Pkg.defineClassA Pkg.initA c2Base).2

def c2LeafA : ClassDef :=
  { modName := "m", clsName := "Leaf", parent := some 1,
    decls := [⟨"edit", .plainFn 2, false⟩], bodyHook := none }

def c2LeafB : ClassDef :=
  { modName := "m", clsName := "Leaf", parent := some 1,
    decls := [⟨"edit", .plainFn 2, false⟩], bodyHook := none }

/-- Witness for C2 on both implementations: a `Leaf` with a distinct
qualified name redeclaring the finalised `edit` is rejected. -/
theorem C2_witness :
    (c2LeafA.parent = some 1 ∧
     Pkg.findRegA c2StA (Pkg.chainA c2StA 1) = some 1 ∧
     "edit" ∈ Pkg.regNames c2StA 1 ∧
     Pkg.findHookA c2StA (Pkg.chainA c2StA 1) = .forbidOverride ∧
     (∃ n c, (Pkg.defineClassA c2StA c2LeafA).1 = .error (.cannotOverride n c))) ∧
    (c2LeafB.parent = some 1 ∧
     Src.findRegB c2StB (Src.bchain c2StB 1) = some 1 ∧
     kget (Src.bregPairs c2StB 1) "edit" = some "m.Base" ∧
     ("m.Base" : String) ≠ qualOf c2LeafB.modName c2LeafB.clsName ∧
     (∃ n c, (Src.defineClassB c2StB c2LeafB).1 = .error (.cannotOverride n c))) :=
  ⟨⟨rfl, by decide, by decide, by decide,
    C2_override_of_final_member_blocked.1 c2StA c2LeafA 1 1 "edit" rfl (by decide)
      (by decide) (by decide) (by decide) (by decide) (by decide)⟩,
   ⟨rfl, by decide, by decide, by decide,
    C2_override_of_final_member_blocked.2 c2StB c2LeafB 1 1 "edit" "m.Base"
      .dflt 1 rfl (by decide) (by decide) (by decide) (by decide) (by decide)
      (by decide) (by decide)⟩⟩

/-! ## Claim C8 -/

/-- Spec scenario B: `Base` finalises `edit`; `Mid(Base)` does not mention
it; `Leaf(Mid)` redeclares it. -/
def c8Base : ClassDef :=
  { modName := "m", clsName := "Base", parent := none,
    decls := [⟨"edit", .plainFn 1, true⟩], bodyHook := none }

def c8St1 : Src.BState := (Src.defineClassB Src.initB c8Base).2.1

def c8Mid : ClassDef :=
  { modName := "m", clsName := "Mid", parent := some 1, decls := [], bodyHook := none }

def c8St2 : Src.BState := (Src.defineClassB c8St1 c8Mid).2.1

def c8Leaf : ClassDef :=
  { modName := "m", clsName := "Leaf", parent := some 2,
    decls := [⟨"edit", .plainFn 7, false⟩], bodyHook := none }

/-- C8 counterexample: in scenario B the raised violation carries the member
name and the *violating subtype* `Leaf` (`cls.__name__` of the class being
defined), not the finalising ancestor `Base` recorded in the registry. -/
theorem C8_counterexample :
    kget (Src.bregPairs c8St2 1) "edit" = some "m.Base" ∧
    (Src.defineClassB c8St2 c8Leaf).1 = .error (.cannotOverride "edit" "Leaf") ∧
    ("Leaf" : String) ≠ "Base" :=
  ⟨by decide, by decide, by decide⟩

/-- C8 (amended): when a descendant illegally redeclares a final member, the
violation identifies the member name and the subtype being defined — the
error interpolates `cls.__name__` of the violating class — while the
finalising ancestor recorded in the registry is not part of the error. -/
theorem C8_violation_names_defining_subtype :
    ∀ (s : Src.BState) (d : ClassDef) (p rid : Nat) (m q : String)
      (oh : Src.BHook) (ob : Nat),
      d.parent = some p →
      (∀ a ∈ Src.bchain s p, (Src.getB s a).isSome = true) →
      Src.findRegB s (Src.bchain s p) = some rid →
      (kget s.regs rid).isSome = true →
      kget (Src.bregPairs s rid) m = some q →
      q ≠ qualOf d.modName d.clsName →
      (kget (buildNs d.decls) m).isSome = true →
      Src.findHookB s (Src.bchain s p) = .forbidOverride oh ob →
      ∃ n, (Src.defineClassB s d).1 = .error (.cannotOverride n d.clsName) :=
  fun s d p rid m q oh ob h1 h2 h3 h4 h5 h6 h7 h8 =>
    Src.overrideBlockedB s d p rid m q oh ob h1 h2 h3 h4 h5 h6 h7 h8

/-! ## Claim C3 -/

def c3Base : ClassDef :=
  { modName := "m", clsName := "Base", parent := none,
    decls := [⟨"edit", .plainFn 1, true⟩], bodyHook := none }

def c3St : Src.BState := (Src.defineClassB Src.initB c3Base).2.1

def c3KBase : Src.BClass :=
  { modName := "m", clsName := "Base", ancs := [], dict := [("edit", .fnV 1)],
    initSub := some (.forbidOverride .dflt 1), reg := some 1 }

/-- C3 counterexample: re-invoking the marking for the same (type, name,
declaring type) triple — `edit` is registered on `Base` under `Base`'s own
qualified name — is not idempotent: `__set_name__` raises the override
violation instead of succeeding. -/
theorem C3_counterexample :
    kget (Src.bregPairs c3St 1) "edit" = some "m.Base" ∧
    Src.bQualOf c3St 1 = "m.Base" ∧
    Src.setNameB c3St 1 "edit" (.fnV 9)
      = (.error (.cannotOverride "edit" "Base"), c3St) :=
  ⟨by decide, by decide, by decide⟩

/-- C3 (amended): declaring the same final member name twice within one
class body succeeds — the class namespace keeps a single entry per name, so
only the last declaration's `__set_name__` runs, registering the name once
under the class's own qualified name and binding it to the last target; but
the marking operation itself is not idempotent: invoking `__set_name__`
again for an already-registered name raises the override violation even
when the recorded declaring type is the owner itself.  Cross-type
redeclaration is rejected as well (at set-name time by registry membership,
and at subtype-definition time by the qualified-name comparison). -/
theorem C3_same_type_redeclaration :
    (∀ (s : Src.BState) (mod cls n : String) (sh1 sh2 : Shape),
      (Src.defineClassB s ⟨mod, cls, none, [⟨n, sh1, true⟩, ⟨n, sh2, true⟩], none⟩).1
        = .ok (Src.freshIdB s) ∧
      ∃ k', Src.getB (Src.defineClassB s
          ⟨mod, cls, none, [⟨n, sh1, true⟩, ⟨n, sh2, true⟩], none⟩).2.1
          (Src.freshIdB s) = some k' ∧
        k'.reg = some (freshNat s.regs) ∧
        kget k'.dict n = some sh2.toVal ∧
        kget (Src.defineClassB s
          ⟨mod, cls, none, [⟨n, sh1, true⟩, ⟨n, sh2, true⟩], none⟩).2.1.regs
          (freshNat s.regs) = some [(n, qualOf mod cls)]) ∧
    (∀ (s : Src.BState) (o rid : Nat) (n q : String) (v : Val) (k : Src.BClass)
      (L : List (String × String)),
      Src.getB s o = some k →
      Src.findRegB s (Src.bchain s o) = some rid →
      kget s.regs rid = some L →
      kget L n = some q →
      q = Src.bQualOf s o →
      Src.setNameB s o n v = (.error (.cannotOverride n k.clsName), s)) :=
  ⟨fun s mod cls n sh1 sh2 => Src.dupFinalSameBody s mod cls n sh1 sh2,
   fun s o rid n q v k L h1 h2 h3 h4 _ => Src.remarkRaises s o rid n q v k L h1 h2 h3 h4⟩

/-- Witness for C3: a paired final accessor declaration under one name
succeeds, and a re-mark of `Base`'s own registered `edit` raises. -/
theorem C3_witness :
    ((Src.defineClassB Src.initB
        ⟨"m", "C", none, [⟨"v", .accessor 3, true⟩, ⟨"v", .accessor 4, true⟩], none⟩).1
        = .ok 1 ∧
      (∃ k', Src.getB (Src.defineClassB Src.initB
          ⟨"m", "C", none, [⟨"v", .accessor 3, true⟩, ⟨"v", .accessor 4, true⟩], none⟩).2.1
          1 = some k' ∧
        k'.reg = some 1 ∧
        kget k'.dict "v" = some (Shape.accessor 4).toVal ∧
        kget (Src.defineClassB Src.initB
          ⟨"m", "C", none, [⟨"v", .accessor 3, true⟩, ⟨"v", .accessor 4, true⟩], none⟩).2.1.regs
          1 = some [("v", qualOf "m" "C")])) ∧
    (Src.getB c3St 1 = some c3KBase ∧
     Src.findRegB c3St (Src.bchain c3St 1) = some 1 ∧
     kget c3St.regs 1 = some [("edit", "m.Base")] ∧
     kget [("edit", "m.Base")] "edit" = some "m.Base" ∧
     ("m.Base" : String) = Src.bQualOf c3St 1 ∧
     Src.setNameB c3St 1 "edit" (.fnV 9)
       = (.error (.cannotOverride "edit" "Base"), c3St)) :=
  ⟨C3_same_type_redeclaration.1 Src.initB "m" "C" "v" (.accessor 3) (.accessor 4),
   ⟨by decide, by decide, by decide, by decide, by decide,
    C3_same_type_redeclaration.2 c3St 1 1 "edit" "m.Base" (.fnV 9) c3KBase
      [("edit", "m.Base")] (by decide) (by decide) (by decide) (by decide) (by decide)⟩⟩

/-- Witness for C8 on scenario B: the violation names `Leaf`. -/
theorem C8_witness :
    c8Leaf.parent = some 2 ∧
    Src.findRegB c8St2 (Src.bchain c8St2 2) = some 1 ∧
    kget (Src.bregPairs c8St2 1) "edit" = some "m.Base" ∧
    (∃ n, (Src.defineClassB c8St2 c8Leaf).1 = .error (.cannotOverride n "Leaf")) :=
  ⟨rfl, by decide, by decide,
    C8_violation_names_defining_subtype c8St2 c8Leaf 2 1 "edit" "m.Base" .dflt 1 rfl
      (by decide) (by decide) (by decide) (by decide) (by decide) (by decide)
      (by decide)⟩

/-! ## C4: delegation to the previously installed hook -/

/-- `Base` declares a plain member `x`, a final member `mf`, and its own
unrelated `__init_subclass__` requiring every subtype to declare `x` itself.
The patch performed by `mf`'s `__set_name__` captures that hook as a method
bound to `Base`. -/
def c4Base : ClassDef :=
  { modName := "m", clsName := "Base", parent := none,
    decls := [⟨"x", .plainFn 10, false⟩, ⟨"mf", .plainFn 11, true⟩],
    bodyHook := some (.requireOwnMember "x") }

def c4St : Src.BState := (Src.defineClassB Src.initB c4Base).2.1

/-- A subtype of `Base` with an empty body — in particular, without an own
member `x`, so the unrelated hook's rule rejects it. -/
def c4Sub : ClassDef :=
  { modName := "m", clsName := "S", parent := some 1, decls := [],
    bodyHook := none }

/-- `B2` finalises `g` with no previously installed hook: the captured old
hook is the default one. -/
def c4DBase : ClassDef :=
  { modName := "m", clsName := "B2", parent := none,
    decls := [⟨"g", .plainFn 5, true⟩], bodyHook := none }

def c4DSt : Src.BState := (Src.defineClassB Src.initB c4DBase).2.1

def c4DSub : ClassDef :=
  { modName := "m", clsName := "T", parent := some 1, decls := [],
    bodyHook := none }

/-- C4 counterexample: the delegation calls the captured bound method with no
arguments, so the unrelated hook runs with the *owner* `Base` (id 1) as its
receiver, never seeing the new subtype `S` (id 2).  Evaluating the unrelated
hook's rule on `S` itself rejects it, yet the definition of `S` succeeds, and
the trace shows the hook was invoked on `Base`. -/
theorem C4_counterexample :
    Src.evalUHookB (Src.defineClassB c4St c4Sub).2.1 (.requireOwnMember "x") 2
      = .error (.userErr "x") ∧
    (Src.defineClassB c4St c4Sub).1 = .ok 2 ∧
    (Src.defineClassB c4St c4Sub).2.2 = [(.requireOwnMember "x", 1)] := by
  refine ⟨by decide, by decide, by decide⟩

/-- C4 (amended): when a subtype definition passes this mechanism's checks,
the previously installed hook captured at installation time is invoked
afterwards, call-and-return, exactly once, and its error propagates — but it
is invoked on the class it was bound to when captured (the patched owner),
not on the new subtype, so a per-subtype rejection rule of an unrelated hook
never examines the subtype; if no previous hook existed the delegation is a
no-op. -/
theorem C4_delegation_runs_once_on_owner :
    (∀ (s : Src.BState) (d : ClassDef) (p rid bnd : Nat) (u : UHook),
      d.parent = some p → d.decls = [] →
      (∀ a ∈ Src.bchain s p, (Src.getB s a).isSome = true) →
      (Src.getB s bnd).isSome = true →
      Src.findRegB s (Src.bchain s p) = some rid →
      Src.findHookB s (Src.bchain s p) = .forbidOverride (.user u) bnd →
      (Src.defineClassB s d).2.2 = [(u, bnd)] ∧
      bnd ≠ Src.freshIdB s ∧
      (Src.defineClassB s d).1 = (match Src.evalUHookB s u bnd with
        | .ok _ => .ok (Src.freshIdB s)
        | .error e => .error e)) ∧
    (∀ (s : Src.BState) (d : ClassDef) (p rid bnd : Nat),
      d.parent = some p → d.decls = [] →
      (∀ a ∈ Src.bchain s p, (Src.getB s a).isSome = true) →
      Src.findRegB s (Src.bchain s p) = some rid →
      Src.findHookB s (Src.bchain s p) = .forbidOverride .dflt bnd →
      (Src.defineClassB s d).1 = .ok (Src.freshIdB s) ∧
      (Src.defineClassB s d).2.2 = []) := by
  constructor
  · intro s d p rid bnd u hp hdecls hanc hbnd hreg hhook
    have heq := Src.delegationSetup s d p rid (.user u) bnd hp hdecls hanc hreg hhook
    obtain ⟨kb, hkb⟩ := Option.isSome_iff_exists.mp hbnd
    have hbne : bnd ≠ Src.freshIdB s := kget_ne_fresh s.classes bnd kb hkb
    have hgb : Src.getB (Src.bodyStateB s d) bnd = Src.getB s bnd := by
      rw [Src.bodyStateB_other s d bnd kb hkb, hkb]
    have hev : Src.evalUHookB (Src.bodyStateB s d) u bnd = Src.evalUHookB s u bnd :=
      Src.evalUHookB_congr s (Src.bodyStateB s d) u bnd hgb
    have hrun : Src.runHookB (Src.bodyStateB s d) (.user u) bnd
        = (Src.evalUHookB s u bnd, [(u, bnd)]) := by
      show (Src.evalUHookB (Src.bodyStateB s d) u bnd, [(u, bnd)]) = _
      rw [hev]
    rw [hrun] at heq
    refine ⟨?_, hbne, ?_⟩
    · cases hcase : Src.evalUHookB s u bnd with
      | ok v =>
        rw [hcase] at heq
        rw [heq]
      | error e =>
        rw [hcase] at heq
        rw [heq]
    · cases hcase : Src.evalUHookB s u bnd with
      | ok v =>
        rw [hcase] at heq
        rw [heq]
      | error e =>
        rw [hcase] at heq
        rw [heq]
  · intro s d p rid bnd hp hdecls hanc hreg hhook
    have heq := Src.delegationSetup s d p rid .dflt bnd hp hdecls hanc hreg hhook
    have hrun : Src.runHookB (Src.bodyStateB s d) .dflt bnd
        = ((.ok () : Except PyErr Unit), ([] : List (UHook × Nat))) := rfl
    rw [hrun] at heq
    exact ⟨by rw [heq], by rw [heq]⟩

/-- Witness for C4: the captured unrelated hook of `Base` runs exactly once,
on `Base` itself, during the definition of `S`; for `B2`, whose captured old
hook is the default one, defining `T` succeeds with no hook invocation. -/
theorem C4_witness :
    ((Src.defineClassB c4St c4Sub).2.2 = [(.requireOwnMember "x", 1)] ∧
      (1 : Nat) ≠ Src.freshIdB c4St ∧
      (Src.defineClassB c4St c4Sub).1
        = (match Src.evalUHookB c4St (.requireOwnMember "x") 1 with
          | .ok _ => .ok (Src.freshIdB c4St)
          | .error e => .error e)) ∧
    ((Src.defineClassB c4DSt c4DSub).1 = .ok (Src.freshIdB c4DSt) ∧
      (Src.defineClassB c4DSt c4DSub).2.2 = []) :=
  ⟨C4_delegation_runs_once_on_owner.1 c4St c4Sub 1 1 1 (.requireOwnMember "x")
      (by decide) (by decide) (by decide) (by decide) (by decide) (by decide),
    C4_delegation_runs_once_on_owner.2 c4DSt c4DSub 1 1 1
      (by decide) (by decide) (by decide) (by decide) (by decide)⟩

namespace Pkg

/-! ## C6: exactness of `is_final` -/

/-- Well-formedness of a program run from an accumulator: every class
statement names an existing base.  (A Python `class C(P)` with an undefined
`P` raises a `NameError` before the body executes, so the decorations of
such a statement never run at all; the model mirrors this by leaving the
state untouched, hence the restriction.) -/
def wfFromA : List Op → (AState × List Nat) → Bool
  | [], _ => true
  | .defc d mk :: t, acc =>
    parentOkA acc.1 d.parent && wfFromA t (stepA acc (.defc d mk))

/-- The reachability invariant of program states: ancestors of every class
exist; a class object carries the `__runtime_is_final__` flag exactly when
it went through `final`; no class has a flagged ancestor (sealed classes
admit no subtypes); and every flagged class has `_forbid_subclassing`
installed. -/
def InvA (s : AState) (log : List Nat) : Prop :=
  (∀ c k, getC s c = some k → ∀ a ∈ k.ancs, (getC s a).isSome = true) ∧
  (∀ c, flaggedOfA s c = true ↔ c ∈ log) ∧
  (∀ c k, getC s c = some k → ∀ a ∈ k.ancs, flaggedOfA s a = false) ∧
  (∀ c k, getC s c = some k → k.flagged = true → k.initSub = some Hook.forbidSub)

theorem InvA_classes_congr (s1 s2 : AState) (log : List Nat)
    (h : ∀ c, getC s1 c = getC s2 c) (hi : InvA s2 log) : InvA s1 log := by
  obtain ⟨I0, I1, I2, I3⟩ := hi
  have hf : ∀ c, flaggedOfA s1 c = flaggedOfA s2 c := by
    intro c
    unfold flaggedOfA
    rw [h c]
  refine ⟨?_, ?_, ?_, ?_⟩
  · intro c k hc a ha
    rw [h a]
    exact I0 c k ((h c).symm.trans hc) a ha
  · intro c
    rw [hf c]
    exact I1 c
  · intro c k hc a ha
    rw [hf a]
    exact I2 c k ((h c).symm.trans hc) a ha
  · intro c k hc
    exact I3 c k ((h c).symm.trans hc)

/-- Pre-existing records are untouched by the `__set_name__` phase, whether
or not they exist. -/
theorem afterSetNamesA_stable (s : AState) (d : ClassDef) (x : Nat)
    (hx : x ≠ freshIdA s) : getC (afterSetNamesA s d) x = getC s x := by
  unfold afterSetNamesA
  rw [runSetNamesA_classes_other _ _ _ _ x hx]
  show kget (s.classes ++ [(freshIdA s, mkCandidateA s d)]) x = getC s x
  rw [getC_append_other s (freshIdA s) (mkCandidateA s d) x hx]
  rfl

theorem afterSetNamesA_flag_stable (s : AState) (d : ClassDef) (x : Nat)
    (hx : x ≠ freshIdA s) :
    flaggedOfA (afterSetNamesA s d) x = flaggedOfA s x := by
  unfold flaggedOfA
  rw [afterSetNamesA_stable s d x hx]

/-- The class body's decorations flag exactly the resolved targets of the
marked declarations, and the `__set_name__` phase adds no flags. -/
theorem afterSetNamesA_flaggedFns (s : AState) (d : ClassDef) :
    (afterSetNamesA s d).flaggedFns
      = s.flaggedFns ++ (d.decls.filter Decl.marked).map (fun q => q.shape.resolve) := by
  unfold afterSetNamesA
  rw [runSetNamesA_flagged]
  rfl

theorem defineClassA_flaggedFns (s : AState) (d : ClassDef)
    (hpo : parentOkA s d.parent = true) :
    (defineClassA s d).2.flaggedFns
      = s.flaggedFns ++ (d.decls.filter Decl.marked).map (fun q => q.shape.resolve) := by
  unfold defineClassA
  rw [if_neg (by simp [hpo])]
  cases hres : hookResA s d with
  | ok u => exact afterSetNamesA_flaggedFns s d
  | error e => exact afterSetNamesA_flaggedFns s d

theorem sealClassA_flaggedFns (s : AState) (c : Nat) :
    (sealClassA s c).flaggedFns = s.flaggedFns := by
  unfold sealClassA
  cases h : getC s c with
  | none => rfl
  | some k => rfl

theorem sealClassA_other (s : AState) (c x : Nat) (hx : x ≠ c) :
    getC (sealClassA s c) x = getC s x := by
  unfold sealClassA
  cases h : getC s c with
  | none => rfl
  | some k => exact kget_kset_other s.classes c x _ hx

theorem sealClassA_self (s : AState) (c : Nat) (k : AClass)
    (h : getC s c = some k) :
    getC (sealClassA s c) c
      = some { k with flagged := true, initSub := some Hook.forbidSub } := by
  unfold sealClassA
  rw [h]
  exact kget_kset_self s.classes c _

/-- Subclassing a class that went through `final` fails: the sealed parent's
own `_forbid_subclassing` heads the hook lookup chain. -/
theorem hookResA_flagged_parent (s : AState) (d : ClassDef) (p : Nat)
    (kp : AClass) (hp : d.parent = some p) (hkp : getC s p = some kp)
    (hsub : kp.initSub = some Hook.forbidSub) :
    ∃ e, hookResA s d = .error e := by
  have hpa : getC (afterSetNamesA s d) p = some kp :=
    afterSetNamesA_other s d p kp hkp
  have hbind : (getC (afterSetNamesA s d) p).bind AClass.initSub
      = some Hook.forbidSub := by
    rw [hpa]
    exact hsub
  have hhook : findHookA (afterSetNamesA s d) (chainA (afterSetNamesA s d) p)
      = .forbidSub := by
    unfold chainA
    unfold findHookA
    rw [hbind]
  unfold hookResA
  rw [hp]
  dsimp only
  rw [hhook, runHookA_forbidSub]
  exact ⟨_, rfl⟩

theorem stepA_eq (acc : AState × List Nat) (d : ClassDef) (mk : Bool) :
    stepA acc (.defc d mk)
      = (match (defineClassA acc.1 d).1, mk with
        | .ok cid, true => (sealClassA (defineClassA acc.1 d).2 cid, acc.2 ++ [cid])
        | _, _ => ((defineClassA acc.1 d).2, acc.2)) := rfl

theorem stepA_of_error (acc : AState × List Nat) (d : ClassDef) (mk : Bool)
    (e : PyErr) (h1 : (defineClassA acc.1 d).1 = .error e) :
    stepA acc (.defc d mk) = ((defineClassA acc.1 d).2, acc.2) := by
  rw [stepA_eq, h1]

theorem stepA_of_ok_false (acc : AState × List Nat) (d : ClassDef) (cid : Nat)
    (h1 : (defineClassA acc.1 d).1 = .ok cid) :
    stepA acc (.defc d false) = ((defineClassA acc.1 d).2, acc.2) := by
  rw [stepA_eq, h1]

theorem stepA_of_ok_true (acc : AState × List Nat) (d : ClassDef) (cid : Nat)
    (h1 : (defineClassA acc.1 d).1 = .ok cid) :
    stepA acc (.defc d true)
      = (sealClassA (defineClassA acc.1 d).2 cid, acc.2 ++ [cid]) := by
  rw [stepA_eq, h1]

/-- One executed class statement preserves the invariant; the flagged
function set grows by exactly the statement's marked resolved targets, and
the log by the new class id exactly when the statement is sealed and
succeeds. -/
theorem stepA_inv (acc : AState × List Nat) (d : ClassDef) (mk : Bool)
    (hinv : InvA acc.1 acc.2) (hpo : parentOkA acc.1 d.parent = true) :
    InvA (stepA acc (.defc d mk)).1 (stepA acc (.defc d mk)).2 ∧
    (stepA acc (.defc d mk)).1.flaggedFns
      = acc.1.flaggedFns ++ opMarkedResolves (.defc d mk) := by
  obtain ⟨I0, I1, I2, I3⟩ := hinv
  have hpo2 : ¬ parentOkA acc.1 d.parent = false := by simp [hpo]
  have hfresh : getC acc.1 (freshIdA acc.1) = none := kget_fresh acc.1.classes
  have hcidlog : freshIdA acc.1 ∉ acc.2 := by
    intro hmem
    have h2 := (I1 (freshIdA acc.1)).mpr hmem
    unfold flaggedOfA at h2
    rw [hfresh] at h2
    exact Bool.noConfusion h2
  obtain ⟨kc, hkc, hkcm, hkcc, hkca, hkcf, hkcd⟩ := afterSetNamesA_cand acc.1 d
  have hstab : ∀ x, x ≠ freshIdA acc.1 →
      getC (afterSetNamesA acc.1 d) x = getC acc.1 x :=
    fun x hx => afterSetNamesA_stable acc.1 d x hx
  have hfstab : ∀ x, x ≠ freshIdA acc.1 →
      flaggedOfA (afterSetNamesA acc.1 d) x = flaggedOfA acc.1 x :=
    fun x hx => afterSetNamesA_flag_stable acc.1 d x hx
  have hflagcid : flaggedOfA (afterSetNamesA acc.1 d) (freshIdA acc.1) = false := by
    unfold flaggedOfA
    rw [hkc]
    exact hkcf
  cases hres : hookResA acc.1 d with
  | error e =>
    have hdef : defineClassA acc.1 d = (.error e, { afterSetNamesA acc.1 d with
        classes := kdel (afterSetNamesA acc.1 d).classes (freshIdA acc.1) }) := by
      unfold defineClassA
      rw [if_neg hpo2, hres]
    have hd1 : (defineClassA acc.1 d).1 = .error e := by rw [hdef]
    have hcls : (defineClassA acc.1 d).2.classes = acc.1.classes := by
      rw [hdef]
      exact afterSetNamesA_kdel acc.1 d
    have hgc : ∀ c, getC (defineClassA acc.1 d).2 c = getC acc.1 c := by
      intro c
      unfold getC
      rw [hcls]
    rw [stepA_of_error acc d mk e hd1]
    refine ⟨InvA_classes_congr _ acc.1 acc.2 hgc ⟨I0, I1, I2, I3⟩, ?_⟩
    show (defineClassA acc.1 d).2.flaggedFns = _
    rw [defineClassA_flaggedFns acc.1 d hpo]
    rfl
  | ok u =>
    have hdef : defineClassA acc.1 d
        = (.ok (freshIdA acc.1), afterSetNamesA acc.1 d) := by
      unfold defineClassA
      rw [if_neg hpo2, hres]
    have hd1 : (defineClassA acc.1 d).1 = .ok (freshIdA acc.1) := by rw [hdef]
    have hd2 : (defineClassA acc.1 d).2 = afterSetNamesA acc.1 d := by rw [hdef]
    have hancs : ∀ a ∈ ancsFor acc.1 d.parent,
        (getC acc.1 a).isSome = true ∧ flaggedOfA acc.1 a = false := by
      cases hpar : d.parent with
      | none =>
        intro a ha
        exact absurd ha (List.not_mem_nil a)
      | some p =>
        have hpo3 := hpo
        rw [hpar] at hpo3
        have hkpex : (getC acc.1 p).isSome = true := hpo3
        obtain ⟨kp, hkp⟩ := Option.isSome_iff_exists.mp hkpex
        have hkpflag : kp.flagged = false := by
          cases hb : kp.flagged with
          | false => rfl
          | true =>
            obtain ⟨e2, he2⟩ :=
              hookResA_flagged_parent acc.1 d p kp hpar hkp (I3 p kp hkp hb)
            rw [hres] at he2
            exact Except.noConfusion he2
        have hAncs : ancsFor acc.1 (some p) = p :: kp.ancs := by
          show p :: ((getC acc.1 p).map AClass.ancs).getD [] = p :: kp.ancs
          rw [hkp]
          rfl
        intro a ha
        rw [hAncs] at ha
        rcases List.mem_cons.mp ha with he | ht
        · subst he
          refine ⟨by rw [hkp]; rfl, ?_⟩
          unfold flaggedOfA
          rw [hkp]
          exact hkpflag
        · exact ⟨I0 p kp hkp a ht, I2 p kp hkp a ht⟩
    have hinvAft : InvA (afterSetNamesA acc.1 d) acc.2 := by
      refine ⟨?_, ?_, ?_, ?_⟩
      · intro c k hc a ha
        by_cases hcc : c = freshIdA acc.1
        · subst hcc
          rw [hkc] at hc
          injection hc with hk
          subst hk
          rw [hkca] at ha
          obtain ⟨hex, _⟩ := hancs a ha
          obtain ⟨ka, hka⟩ := Option.isSome_iff_exists.mp hex
          have hane : a ≠ freshIdA acc.1 := kget_ne_fresh acc.1.classes a ka hka
          rw [hstab a hane]
          exact hex
        · rw [hstab c hcc] at hc
          have hex := I0 c k hc a ha
          obtain ⟨ka, hka⟩ := Option.isSome_iff_exists.mp hex
          have hane : a ≠ freshIdA acc.1 := kget_ne_fresh acc.1.classes a ka hka
          rw [hstab a hane]
          exact hex
      · intro c
        by_cases hcc : c = freshIdA acc.1
        · subst hcc
          rw [hflagcid]
          simp [hcidlog]
        · rw [hfstab c hcc]
          exact I1 c
      · intro c k hc a ha
        by_cases hcc : c = freshIdA acc.1
        · subst hcc
          rw [hkc] at hc
          injection hc with hk
          subst hk
          rw [hkca] at ha
          obtain ⟨hex, hfl⟩ := hancs a ha
          obtain ⟨ka, hka⟩ := Option.isSome_iff_exists.mp hex
          have hane : a ≠ freshIdA acc.1 := kget_ne_fresh acc.1.classes a ka hka
          rw [hfstab a hane]
          exact hfl
        · rw [hstab c hcc] at hc
          have hex := I0 c k hc a ha
          obtain ⟨ka, hka⟩ := Option.isSome_iff_exists.mp hex
          have hane : a ≠ freshIdA acc.1 := kget_ne_fresh acc.1.classes a ka hka
          rw [hfstab a hane]
          exact I2 c k hc a ha
      · intro c k hc hf
        by_cases hcc : c = freshIdA acc.1
        · subst hcc
          rw [hkc] at hc
          injection hc with hk
          subst hk
          rw [hkcf] at hf
          exact Bool.noConfusion hf
        · rw [hstab c hcc] at hc
          exact I3 c k hc hf
    cases mk with
    | false =>
      rw [stepA_of_ok_false acc d (freshIdA acc.1) hd1, hd2]
      refine ⟨hinvAft, ?_⟩
      show (afterSetNamesA acc.1 d).flaggedFns = _
      rw [afterSetNamesA_flaggedFns]
      rfl
    | true =>
      have hstep := stepA_of_ok_true acc d (freshIdA acc.1) hd1
      rw [hd2] at hstep
      rw [hstep]
      have hsealself :=
        sealClassA_self (afterSetNamesA acc.1 d) (freshIdA acc.1) kc hkc
      have hsealother : ∀ x, x ≠ freshIdA acc.1 →
          getC (sealClassA (afterSetNamesA acc.1 d) (freshIdA acc.1)) x
            = getC acc.1 x :=
        fun x hx => (sealClassA_other _ _ x (by exact hx)).trans (hstab x hx)
      have hfsealother : ∀ x, x ≠ freshIdA acc.1 →
          flaggedOfA (sealClassA (afterSetNamesA acc.1 d) (freshIdA acc.1)) x
            = flaggedOfA acc.1 x := by
        intro x hx
        unfold flaggedOfA
        rw [hsealother x hx]
      have hfsealself : flaggedOfA
          (sealClassA (afterSetNamesA acc.1 d) (freshIdA acc.1))
          (freshIdA acc.1) = true := by
        unfold flaggedOfA
        rw [hsealself]
        rfl
      refine ⟨?_, ?_⟩
      · show InvA (sealClassA (afterSetNamesA acc.1 d) (freshIdA acc.1))
          (acc.2 ++ [freshIdA acc.1])
        refine ⟨?_, ?_, ?_, ?_⟩
        · intro c k hc a ha
          by_cases hcc : c = freshIdA acc.1
          · subst hcc
            rw [hsealself] at hc
            injection hc with hk
            have hka2 : k.ancs = ancsFor acc.1 d.parent := by
              rw [← hk]
              exact hkca
            rw [hka2] at ha
            obtain ⟨hex, _⟩ := hancs a ha
            obtain ⟨ka, hka⟩ := Option.isSome_iff_exists.mp hex
            have hane : a ≠ freshIdA acc.1 := kget_ne_fresh acc.1.classes a ka hka
            rw [hsealother a hane]
            exact hex
          · rw [hsealother c hcc] at hc
            have hex := I0 c k hc a ha
            obtain ⟨ka, hka⟩ := Option.isSome_iff_exists.mp hex
            have hane : a ≠ freshIdA acc.1 := kget_ne_fresh acc.1.classes a ka hka
            rw [hsealother a hane]
            exact hex
        · intro c
          by_cases hcc : c = freshIdA acc.1
          · subst hcc
            simp [hfsealself]
          · rw [hfsealother c hcc, I1 c]
            simp [hcc]
        · intro c k hc a ha
          by_cases hcc : c = freshIdA acc.1
          · subst hcc
            rw [hsealself] at hc
            injection hc with hk
            have hka2 : k.ancs = ancsFor acc.1 d.parent := by
              rw [← hk]
              exact hkca
            rw [hka2] at ha
            obtain ⟨hex, hfl⟩ := hancs a ha
            obtain ⟨ka, hka⟩ := Option.isSome_iff_exists.mp hex
            have hane : a ≠ freshIdA acc.1 := kget_ne_fresh acc.1.classes a ka hka
            rw [hfsealother a hane]
            exact hfl
          · rw [hsealother c hcc] at hc
            have hex := I0 c k hc a ha
            obtain ⟨ka, hka⟩ := Option.isSome_iff_exists.mp hex
            have hane : a ≠ freshIdA acc.1 := kget_ne_fresh acc.1.classes a ka hka
            rw [hfsealother a hane]
            exact I2 c k hc a ha
        · intro c k hc hf
          by_cases hcc : c = freshIdA acc.1
          · subst hcc
            rw [hsealself] at hc
            injection hc with hk
            rw [← hk]
          · rw [hsealother c hcc] at hc
            exact I3 c k hc hf
      · show (sealClassA (afterSetNamesA acc.1 d) (freshIdA acc.1)).flaggedFns = _
        rw [sealClassA_flaggedFns, afterSetNamesA_flaggedFns]
        rfl

theorem progMarkedResolves_cons (op : Op) (t : List Op) :
    progMarkedResolves (op :: t) = opMarkedResolves op ++ progMarkedResolves t := by
  unfold progMarkedResolves
  rw [List.map_cons, List.flatten_cons]

/-- Folding a well-formed program preserves the invariant and accumulates
exactly the marked resolved targets in the flagged-function set. -/
theorem runFoldA_inv : ∀ (p : List Op) (acc : AState × List Nat),
    InvA acc.1 acc.2 → wfFromA p acc = true →
    InvA (p.foldl stepA acc).1 (p.foldl stepA acc).2 ∧
    (p.foldl stepA acc).1.flaggedFns
      = acc.1.flaggedFns ++ progMarkedResolves p := by
  intro p
  induction p with
  | nil =>
    intro acc h _
    exact ⟨h, by simp [progMarkedResolves]⟩
  | cons op t ih =>
    intro acc hinv hwf
    cases op with
    | defc d mk =>
      unfold wfFromA at hwf
      rw [Bool.and_eq_true] at hwf
      obtain ⟨hpo, hwf2⟩ := hwf
      have hstep := stepA_inv acc d mk hinv hpo
      have hrec := ih (stepA acc (.defc d mk)) hstep.1 hwf2
      rw [List.foldl_cons]
      refine ⟨hrec.1, ?_⟩
      rw [hrec.2, hstep.2, progMarkedResolves_cons, List.append_assoc]

/-- In an invariant state, `is_final` on a class reduces to the class's own
flag: no reachable class has a flagged ancestor, so the `hasattr` chain walk
adds nothing. -/
theorem isFinalClsA_iff_of_inv (s : AState) (log : List Nat)
    (hi : InvA s log) : ∀ c, isFinalClsA s c = true ↔ c ∈ log := by
  obtain ⟨I0, I1, I2, I3⟩ := hi
  intro c
  unfold isFinalClsA chainA
  cases hc : getC s c with
  | none =>
    show (flaggedOfA s c || false) = true ↔ c ∈ log
    rw [Bool.or_false]
    exact I1 c
  | some k =>
    show (flaggedOfA s c || k.ancs.any (flaggedOfA s)) = true ↔ c ∈ log
    have hanc := I2 c k hc
    constructor
    · intro h
      rcases Bool.or_eq_true_iff.mp h with h1 | h2
      · exact (I1 c).mp h1
      · obtain ⟨a, ha, hfa⟩ := List.any_eq_true.mp h2
        rw [hanc a ha] at hfa
        exact absurd hfa (by simp)
    · intro h
      rw [Bool.or_eq_true_iff]
      exact Or.inl ((I1 c).mpr h)

/-- C6: over any well-formed program of (possibly `@final`-decorated) class
statements, `is_final` holds of a function object exactly when it is the
resolved target of some `@final` member decoration the program executed, and
holds of a class object exactly when that class was passed through `final`
as a whole type — and of nothing else, unrelated members and classes
included. -/
theorem C6_is_final_exact (p : List Op)
    (hwf : wfFromA p (initA, []) = true) :
    (∀ f, isFinalFnA (runA p).1 f = true ↔ f ∈ progMarkedResolves p) ∧
    (∀ c, isFinalClsA (runA p).1 c = true ↔ c ∈ (runA p).2) := by
  have hinv0 : InvA initA [] := by
    refine ⟨?_, ?_, ?_, ?_⟩
    · intro c k hc
      simp [getC, initA] at hc
    · intro c
      simp [flaggedOfA, getC, initA]
    · intro c k hc
      simp [getC, initA] at hc
    · intro c k hc
      simp [getC, initA] at hc
  have h := runFoldA_inv p (initA, []) hinv0 hwf
  constructor
  · intro f
    unfold runA isFinalFnA
    rw [h.2]
    simp [initA]
  · intro c
    unfold runA
    exact isFinalClsA_iff_of_inv _ _ h.1 c

/-- `K` declares a final member resolving to function 7. -/
def c6K : ClassDef := ⟨"m", "K", none, [⟨"mf", .plainFn 7, true⟩], none⟩

/-- `F` is a `@final`-decorated class (id 2 in `c6Prog`). -/
def c6F : ClassDef := ⟨"m", "F", none, [], none⟩

/-- A two-statement program exercising both flavours of the marking API. -/
def c6Prog : List Op := [Op.defc c6K false, Op.defc c6F true]

/-- Witness for C6: in the program `c6Prog`, function 7 is final and
function 9 is not; class 2 (`F`) is final and class 1 (`K`) is not. -/
theorem C6_witness :
    wfFromA c6Prog (initA, []) = true ∧
    (isFinalFnA (runA c6Prog).1 7 = true ↔ 7 ∈ progMarkedResolves c6Prog) ∧
    (isFinalFnA (runA c6Prog).1 9 = true ↔ 9 ∈ progMarkedResolves c6Prog) ∧
    (isFinalClsA (runA c6Prog).1 2 = true ↔ 2 ∈ (runA c6Prog).2) ∧
    (isFinalClsA (runA c6Prog).1 1 = true ↔ 1 ∈ (runA c6Prog).2) :=
  ⟨by decide,
   (C6_is_final_exact c6Prog (by decide)).1 7,
   (C6_is_final_exact c6Prog (by decide)).1 9,
   (C6_is_final_exact c6Prog (by decide)).2 2,
   (C6_is_final_exact c6Prog (by decide)).2 1⟩

end Pkg

end RuntimeFinal
